import Mathlib

set_option maxRecDepth 10000

/-!
Verification of the csv_merger transaction normalization and deduplication
pipeline (`main.py`).  The Python source is shallowly embedded: pandas cells
become the inductive type `CellVal` (`NaN`/`None` is `vnull`), dataframes
become a column list plus positional rows, floats become rationals, and the
SQLAlchemy-backed store becomes an explicit `Store` value threaded through
the functions.  Each definition mirrors one Python function of `main.py`.
-/

/-- Calendar date, the result of successful date parsing. -/
structure PDate where
  year : Nat
  month : Nat
  day : Nat
deriving DecidableEq

/-- Value of one dataframe cell.  `vnull` stands for pandas `NaN`/`None`/`NaT`;
numbers are modelled as rationals; `vdate` is a normalized datetime cell. -/
inductive CellVal where
  | vnull
  | vstr (s : String)
  | vnum (q : Rat)
  | vdate (d : PDate)
deriving DecidableEq

/-- Vendor row of the `vendors` table (`dbmodels.Vendor`). -/
structure VendorRec where
  vendorId : Nat
  vendorName : String
  vendorCode : String
deriving DecidableEq

/-- Transaction row of the `AccountTransaction` table, restricted to the
fields `store_transaction_in_db` writes. -/
structure TxnRec where
  transactionDate : CellVal
  postingDate : CellVal
  amount : CellVal
  description : CellVal
  vendorId : Nat
  category : CellVal
  saleType : CellVal
deriving DecidableEq

/-- One normalized row as handed to `store_transaction_in_db`: the values
`df_row.get(...)` returns for each field name (`vnull` when absent). -/
structure PRow where
  transaction_date : CellVal
  posting_date : CellVal
  amount : CellVal
  description : CellVal
  vendorName : CellVal
  category : CellVal
  saleType : CellVal
deriving DecidableEq

/-- Persistent store: the two tables `store_transaction_in_db` touches. -/
structure Store where
  txns : List TxnRec
  vendors : List VendorRec
deriving DecidableEq

/-- Model of `pd.to_datetime` as applied in `store_transaction_in_db`: on
normalized rows the date cells are already datetime (`vdate`) or null
(`NaT`/`vnull`), on which the conversion is the identity. -/
def pdToDatetime (v : CellVal) : CellVal := v

/-- The natural-key comparison of the duplicate query in
`store_transaction_in_db` (lines 37-42): equality on
(`transaction_date`, `posting_date`, `amount`, `description`). -/
def matchesKey (r : PRow) (t : TxnRec) : Bool :=
  t.transactionDate == pdToDatetime r.transaction_date &&
  t.postingDate == pdToDatetime r.posting_date &&
  t.amount == r.amount &&
  t.description == r.description

/-- Vendor lookup `session.query(Vendor).filter_by(vendor_name=...).first()`.
A null `vendorName` matches nothing (SQL `NULL` equality). -/
def findVendor (st : Store) (name : CellVal) : Option VendorRec :=
  st.vendors.find? (fun v => CellVal.vstr v.vendorName == name)

/-- The `AccountTransaction` record built at lines 61-73 of `main.py`. -/
def mkTxn (r : PRow) (vid : Nat) : TxnRec :=
  { transactionDate := pdToDatetime r.transaction_date
    postingDate := pdToDatetime r.posting_date
    amount := r.amount
    description := r.description
    vendorId := vid
    category := r.category
    saleType := r.saleType }

/-- Outcome of one `store_transaction_in_db` call: `accepted` is `return True`,
`duplicate` is `return False`, `errored` is the exception path (the vendor
creation raises `TypeError` on a non-string `vendorName` via
`vendor_name[:10]`; the session is rolled back). -/
inductive StoreResult where
  | accepted
  | duplicate
  | errored
deriving DecidableEq

/-- Model of `store_transaction_in_db`: duplicate check first, then vendor
lookup-or-create, then insert; returns the outcome and the updated store. -/
def storeTransactionInDb (st : Store) (r : PRow) : StoreResult × Store :=
  if (st.txns.find? (matchesKey r)).isSome then
    (StoreResult.duplicate, st)
  else
    match findVendor st r.vendorName with
    | some v =>
        (StoreResult.accepted, { st with txns := st.txns ++ [mkTxn r v.vendorId] })
    | none =>
        match r.vendorName with
        | CellVal.vstr n =>
            let v : VendorRec :=
              { vendorId := st.vendors.length + 1
                vendorName := n
                vendorCode := ((n.data.take 10).asString) }
            (StoreResult.accepted,
              { txns := st.txns ++ [mkTxn r v.vendorId]
                vendors := st.vendors ++ [v] })
        | _ => (StoreResult.errored, st)

/-- The `transaction_stats` dictionary of `read_all_csv_from_folder`. -/
structure TransactionStats where
  total : Nat
  successful : Nat
  duplicates : Nat
  failed : Nat
deriving DecidableEq

/-- The per-row persistence loop of `read_all_csv_from_folder` (lines
123-134): each row increments `total` and then exactly one of `successful`,
`duplicates`, `failed` according to the outcome. -/
def storeRows (st : Store) (rows : List PRow) (acc : TransactionStats) :
    TransactionStats × Store :=
  match rows with
  | [] => (acc, st)
  | r :: rs =>
      let acc1 : TransactionStats := { acc with total := acc.total + 1 }
      match storeTransactionInDb st r with
      | (StoreResult.accepted, st') =>
          storeRows st' rs { acc1 with successful := acc1.successful + 1 }
      | (StoreResult.duplicate, st') =>
          storeRows st' rs { acc1 with duplicates := acc1.duplicates + 1 }
      | (StoreResult.errored, st') =>
          storeRows st' rs { acc1 with failed := acc1.failed + 1 }

/-- One ingestion run over a combined batch, starting from fresh statistics,
as `read_all_csv_from_folder` does after combining files. -/
def ingestRun (st : Store) (rows : List PRow) : TransactionStats × Store :=
  storeRows st rows { total := 0, successful := 0, duplicates := 0, failed := 0 }

/-! ### Header mapper: `mapper` lines 204-240 of `main.py` -/

/-- Decimal decoding of a digit-character list, used to invert `Nat.repr`. -/
def decodeChars : List Char → Nat → Nat
  | [], a => a
  | c :: cs, a => decodeChars cs (10 * a + (c.toNat - 48))

/-- The suffixed column name the Python f-string builds in the collision
loop of `mapper`. -/
def sfx (base : String) (k : Nat) : String := base ++ "_" ++ Nat.repr k

/-- The `while f"..._{suffix}" in seen_columns: suffix += 1` loop, with
explicit fuel; `seen.card + 1` fuel always suffices. -/
def freshFrom (cand : String) (seen : Finset String) : Nat → Nat → String
  | 0, k => sfx cand k
  | f + 1, k => if sfx cand k ∈ seen then freshFrom cand seen f (k + 1) else sfx cand k

/-- Collision resolution of `mapper`: the smallest suffix `_1`, `_2`, ...
that is not yet taken. -/
def freshName (cand : String) (seen : Finset String) : String :=
  freshFrom cand seen (seen.card + 1) 1

/-- Python substring test `nd in hay` on character lists. -/
def containsSub (hay nd : List Char) : Bool :=
  match hay with
  | [] => nd.isEmpty
  | _ :: t => nd.isPrefixOf hay || containsSub t nd

/-- Python substring test on strings. -/
def strHas (hay nd : String) : Bool := containsSub hay.data nd.data

/-- Header normalization `str(col).lower().replace(" ", "")` (ASCII
lowercasing, as bank CSV headers are ASCII). -/
def normHdr (s : String) : String :=
  ((s.data.map Char.toLower).filter (fun c => !(c == ' '))).asString

/-- All `(normalized alternate, standard name)` pairs of the synonym table,
in declaration order, as `mapper` enumerates them. -/
def revPairs (hm : List (String × List String)) : List (String × String) :=
  hm.flatMap (fun p => p.2.map (fun alt => (normHdr alt, p.1)))

/-- The `reverse_mapping` dictionary: repeated Python dict assignment means
the last declaration of an alternate wins. -/
def revOf (hm : List (String × List String)) : String → Option String :=
  fun k => (revPairs hm).reverse.lookup k

/-- The candidate output name for one normalized header: synonym-table hit,
else the credit/debit keyword fallback, else passthrough.  A header
containing both "credit" and "debit" passes through. -/
def candidateName (rev : String → Option String) (c : String) : String :=
  match rev c with
  | some std => std
  | none =>
      if strHas c "credit" && !(strHas c "debit") then "amount_c"
      else if strHas c "debit" && !(strHas c "credit") then "amount_d"
      else c

/-- The renaming fold of `mapper` (lines 204-240): candidate name, collision
check against `seen_columns`, suffixing, and accumulation. -/
def mapCols (rev : String → Option String) : List String → Finset String → List String
  | [], _ => []
  | c :: cs, seen =>
      let cand := candidateName rev c
      let name := if cand ∈ seen then freshName cand seen else cand
      name :: mapCols rev cs (insert name seen)

/-- Column names `mapper` produces for a raw header row and synonym table:
normalization followed by the renaming fold, starting from no seen names. -/
def mapperCols (hm : List (String × List String)) (cols : List String) : List String :=
  mapCols (revOf hm) (cols.map normHdr) ∅

/-! ### Concrete values used by the witnesses -/

/-- A sample normalized row, as the pipeline would hand it to persistence. -/
def rowW : PRow :=
  { transaction_date := CellVal.vdate { year := 2024, month := 3, day := 14 }
    posting_date := CellVal.vdate { year := 2024, month := 3, day := 14 }
    amount := CellVal.vnum 5
    description := CellVal.vstr "COFFEE SHOP PURCHASE"
    vendorName := CellVal.vstr "COFFEE SHOP"
    category := CellVal.vstr "No Category Mentioned"
    saleType := CellVal.vstr "Credit" }

/-- The empty persistent store. -/
def emptyStore : Store := { txns := [], vendors := [] }

/-- A store already holding `rowW`. -/
def storeW : Store :=
  { txns := [mkTxn rowW 1]
    vendors := [{ vendorId := 1, vendorName := "COFFEE SHOP", vendorCode := "COFFEE SHO" }] }

/-- A synonym table fixture for witnesses. -/
def hmW : List (String × List String) :=
  [("posting_date", ["Posting Date", "Post Date"]),
   ("description", ["Description", "Details"])]

/-- A raw header row with a credit/debit pair and a colliding debit column. -/
def colsW : List String :=
  ["Posting Date", "Description", "Debit", "Credit", "Debit Amount"]

/-! ### Numeric coercion: `process_string` and `pd.to_numeric(errors="coerce")` -/

/-- Python whitespace test (`str.isspace` characters used by `strip`/`split`). -/
def isSpaceB (c : Char) : Bool :=
  c == ' ' || c == '\t' || c == '\n' || c == '\r' || c == '\x0b' || c == '\x0c'

/-- Python `str.strip()` on a character list. -/
def pyStripWS (l : List Char) : List Char :=
  ((l.dropWhile isSpaceB).reverse.dropWhile isSpaceB).reverse

/-- Decimal value of a digit run. -/
def digitsVal (l : List Char) : Nat :=
  l.foldl (fun a c => 10 * a + (c.toNat - 48)) 0

/-- Exponent suffix of a float literal (after `e`/`E`). -/
def applyExp (m : Rat) (cs : List Char) : Option Rat :=
  let p :=
    match cs with
    | '-' :: t => (true, t)
    | '+' :: t => (false, t)
    | t => (false, t)
  if p.2.isEmpty || !(p.2.all (fun c : Char => c.isDigit)) then none
  else
    let e := digitsVal p.2
    some (if p.1 then m / ((10 : Rat) ^ e) else m * ((10 : Rat) ^ e))

/-- The float-literal fragment of the pandas string-to-number parser used by
`pd.to_numeric`: optional surrounding whitespace, optional sign, decimal
digits with at most one dot, optional exponent.  Anything else (commas,
currency symbols, letters) fails. -/
def parseFloat (s : String) : Option Rat :=
  let cs := pyStripWS s.data
  let p :=
    match cs with
    | '-' :: t => (true, t)
    | '+' :: t => (false, t)
    | t => (false, t)
  let ip := p.2.takeWhile (fun c : Char => c.isDigit)
  let rest1 := p.2.dropWhile (fun c : Char => c.isDigit)
  let fr :=
    match rest1 with
    | '.' :: t => (t.takeWhile (fun c : Char => c.isDigit), t.dropWhile (fun c : Char => c.isDigit))
    | t => (([] : List Char), t)
  if ip.isEmpty && fr.1.isEmpty then none
  else
    let mant : Rat := (digitsVal ip : Rat) + (digitsVal fr.1 : Rat) / ((10 : Rat) ^ fr.1.length)
    let signed : Rat := if p.1 then -mant else mant
    match fr.2 with
    | [] => some signed
    | 'e' :: t => applyExp signed t
    | 'E' :: t => applyExp signed t
    | _ => none

/-- Model of `process_string` (lines 26-29 of `main.py`): floats and the
empty string pass through; a string loses one leading dollar sign. -/
def processString (v : CellVal) : CellVal :=
  match v with
  | CellVal.vnum q => CellVal.vnum q
  | CellVal.vnull => CellVal.vnull
  | CellVal.vdate d => CellVal.vdate d
  | CellVal.vstr s =>
      if s == "" then CellVal.vstr s
      else if "$".data.isPrefixOf s.data then CellVal.vstr ((s.data.drop 1).asString)
      else CellVal.vstr s

/-- Model of `pd.to_numeric(..., errors="coerce")` on one cell: numbers and
nulls pass through, strings are parsed, failures become `NaN`. -/
def toNumericCell (v : CellVal) : CellVal :=
  match v with
  | CellVal.vnum q => CellVal.vnum q
  | CellVal.vnull => CellVal.vnull
  | CellVal.vstr s =>
      match parseFloat s with
      | some q => CellVal.vnum q
      | none => CellVal.vnull
  | CellVal.vdate _ => CellVal.vnull

/-- Removal of every dot after the first one. -/
def dropExtraDots : List Char → Bool → List Char
  | [], _ => []
  | c :: t, seen =>
      if c == '.' then (if seen then dropExtraDots t seen else c :: dropExtraDots t true)
      else c :: dropExtraDots t seen

/-- Modelled from the spec wording of claim C4 (not from the code): keep only
digits, dots and minus signs; treat all dots after the first as thousands
separators and remove them; on parse failure retain the original string. -/
def specCoerce (s : String) : CellVal :=
  let cleaned :=
    (dropExtraDots (s.data.filter (fun c => c.isDigit || c == '.' || c == '-')) false).asString
  match parseFloat cleaned with
  | some q => CellVal.vnum q
  | none => CellVal.vstr s

/-! ### Date parsing: `convert_to_yyyy_mm_dd` -/

inductive FTok where
  | lit (c : Char)
  | ws
  | dY
  | dm
  | dd
  | dy
  | dB
  | db
deriving DecidableEq

def parseFmt : List Char → List FTok
  | [] => []
  | '%' :: c :: t =>
      (match c with
       | 'Y' => FTok.dY
       | 'm' => FTok.dm
       | 'd' => FTok.dd
       | 'y' => FTok.dy
       | 'B' => FTok.dB
       | 'b' => FTok.db
       | c => FTok.lit c) :: parseFmt t
  | ' ' :: t => FTok.ws :: parseFmt t
  | c :: t => FTok.lit c :: parseFmt t

def dval (c : Char) : Nat := c.toNat - 48

def isD (c : Char) : Bool := c.isDigit

/-- Alternatives for the month regex `1[0-2]|0[1-9]|[1-9]`, in order. -/
def altM (cs : List Char) : List (Nat × List Char) :=
  (match cs with
   | c1 :: c2 :: t =>
      if c1 == '1' && (48 ≤ c2.toNat && c2.toNat ≤ 50) then [(10 + dval c2, t)] else []
   | _ => []) ++
  (match cs with
   | c1 :: c2 :: t =>
      if c1 == '0' && (49 ≤ c2.toNat && c2.toNat ≤ 57) then [(dval c2, t)] else []
   | _ => []) ++
  (match cs with
   | c1 :: t => if 49 ≤ c1.toNat && c1.toNat ≤ 57 then [(dval c1, t)] else []
   | _ => [])

/-- Alternatives for the day regex `3[01]|[12]\d|0[1-9]|[1-9]`, in order. -/
def altD (cs : List Char) : List (Nat × List Char) :=
  (match cs with
   | c1 :: c2 :: t =>
      if c1 == '3' && (48 ≤ c2.toNat && c2.toNat ≤ 49) then [(30 + dval c2, t)] else []
   | _ => []) ++
  (match cs with
   | c1 :: c2 :: t =>
      if (49 ≤ c1.toNat && c1.toNat ≤ 50) && isD c2 then [(10 * dval c1 + dval c2, t)] else []
   | _ => []) ++
  (match cs with
   | c1 :: c2 :: t =>
      if c1 == '0' && (49 ≤ c2.toNat && c2.toNat ≤ 57) then [(dval c2, t)] else []
   | _ => []) ++
  (match cs with
   | c1 :: t => if 49 ≤ c1.toNat && c1.toNat ≤ 57 then [(dval c1, t)] else []
   | _ => [])

/-- Exactly four digits (`%Y`). -/
def altY4 (cs : List Char) : List (Nat × List Char) :=
  match cs with
  | c1 :: c2 :: c3 :: c4 :: t =>
      if isD c1 && isD c2 && isD c3 && isD c4 then
        [(1000 * dval c1 + 100 * dval c2 + 10 * dval c3 + dval c4, t)]
      else []
  | _ => []

/-- Exactly two digits (`%y`), with the 1969/2068 century rule. -/
def altY2 (cs : List Char) : List (Nat × List Char) :=
  match cs with
  | c1 :: c2 :: t =>
      if isD c1 && isD c2 then
        let v := 10 * dval c1 + dval c2
        [(if v ≤ 68 then 2000 + v else 1900 + v, t)]
      else []
  | _ => []

/-- Full month names, longest first (stable on ties), lowercased. -/
def monthsFull : List (List Char × Nat) :=
  [("september".data, 9), ("february".data, 2), ("november".data, 11), ("december".data, 12),
   ("january".data, 1), ("october".data, 10), ("august".data, 8), ("march".data, 3),
   ("april".data, 4), ("june".data, 6), ("july".data, 7), ("may".data, 5)]

/-- Abbreviated month names. -/
def monthsAbbr : List (List Char × Nat) :=
  [("jan".data, 1), ("feb".data, 2), ("mar".data, 3), ("apr".data, 4), ("may".data, 5),
   ("jun".data, 6), ("jul".data, 7), ("aug".data, 8), ("sep".data, 9), ("oct".data, 10),
   ("nov".data, 11), ("dec".data, 12)]

def altMonth (tbl : List (List Char × Nat)) (cs : List Char) : List (Nat × List Char) :=
  tbl.flatMap (fun p =>
    if p.1.isPrefixOf (cs.map Char.toLower) then [(p.2, cs.drop p.1.length)] else [])

structure DParts where
  py : Option Nat
  pm : Option Nat
  pd : Option Nat
deriving DecidableEq

def runToks : List FTok → DParts → List Char → List (DParts × List Char)
  | [], parts, cs => [(parts, cs)]
  | FTok.lit c :: ts, parts, cs =>
      match cs with
      | c' :: t => if c' == c then runToks ts parts t else []
      | [] => []
  | FTok.ws :: ts, parts, cs =>
      let r := (cs.takeWhile isSpaceB).length
      (List.range r).flatMap (fun i => runToks ts parts (cs.drop (r - i)))
  | FTok.dY :: ts, parts, cs =>
      (altY4 cs).flatMap (fun p => runToks ts { parts with py := some p.1 } p.2)
  | FTok.dy :: ts, parts, cs =>
      (altY2 cs).flatMap (fun p => runToks ts { parts with py := some p.1 } p.2)
  | FTok.dm :: ts, parts, cs =>
      (altM cs).flatMap (fun p => runToks ts { parts with pm := some p.1 } p.2)
  | FTok.dd :: ts, parts, cs =>
      (altD cs).flatMap (fun p => runToks ts { parts with pd := some p.1 } p.2)
  | FTok.dB :: ts, parts, cs =>
      (altMonth monthsFull cs).flatMap (fun p => runToks ts { parts with pm := some p.1 } p.2)
  | FTok.db :: ts, parts, cs =>
      (altMonth monthsAbbr cs).flatMap (fun p => runToks ts { parts with pm := some p.1 } p.2)

def leapYear (y : Nat) : Bool := (y % 4 == 0 && !(y % 100 == 0)) || y % 400 == 0

def daysInMonth (y m : Nat) : Nat :=
  if m == 2 then (if leapYear y then 29 else 28)
  else if m == 4 || m == 6 || m == 9 || m == 11 then 30
  else 31

/-- Model of `datetime.strptime(data, fmt)` restricted to the directives the
source's format list uses: the leftmost-preference regex match must consume
the whole string and the matched day must exist in the matched month. -/
def strptimeM (fmt : String) (cs : List Char) : Option PDate :=
  match runToks (parseFmt fmt.data) { py := none, pm := none, pd := none } cs with
  | [] => none
  | (parts, rest) :: _ =>
      if rest.isEmpty then
        let y := parts.py.getD 1900
        let m := parts.pm.getD 1
        let d := parts.pd.getD 1
        if 1 ≤ d && d ≤ daysInMonth y m then some { year := y, month := m, day := d } else none
      else none

def commonFormats : List String :=
  ["%Y-%m-%d", "%m/%d/%Y", "%d/%m/%Y", "%m-%d-%Y", "%d-%m-%Y", "%Y/%m/%d",
   "%B %d, %Y", "%d %B %Y", "%b %d, %Y", "%d %b %Y", "%Y%m%d",
   "%m/%d/%y", "%d/%m/%y", "%m-%d-%y", "%d-%m-%y"]

def tryFormats (cs : List Char) : Option PDate :=
  commonFormats.findSome? (fun f => strptimeM f cs)

/-- Python `str()` of an integer-valued numeric cell (the only numeric date
cells the source produces); non-integer cells are outside the modelled
fragment and render as a non-date placeholder. -/
def ratStr (q : Rat) : String :=
  if q.den == 1 then
    (if q.num < 0 then "-" ++ Nat.repr q.num.natAbs else Nat.repr q.num.natAbs)
  else "?"

/-- Two-digit zero padding. -/
def pad2 (n : Nat) : String := if n < 10 then "0" ++ Nat.repr n else Nat.repr n

/-- Four-digit zero padding. -/
def pad4 (n : Nat) : String :=
  if n < 10 then "000" ++ Nat.repr n
  else if n < 100 then "00" ++ Nat.repr n
  else if n < 1000 then "0" ++ Nat.repr n
  else Nat.repr n

/-- Python `str()` of a pandas `Timestamp` (midnight). -/
def dateStr (d : PDate) : String :=
  pad4 d.year ++ "-" ++ pad2 d.month ++ "-" ++ pad2 d.day ++ " 00:00:00"

/-- Model of `convert_to_yyyy_mm_dd` (lines 253-310 of `main.py`): nulls and
empty strings become `None`; datetimes are kept; otherwise the stripped
string representation is tried against the ordered format list, first match
wins, and on total failure the free-form fallback parser `fb`
(`pd.to_datetime`) decides; its failure is `None`. -/
def convertToYMD (fb : String → Option PDate) (v : CellVal) : Option PDate :=
  match v with
  | CellVal.vnull => none
  | CellVal.vdate d => some d
  | CellVal.vstr s =>
      if s == "" then none
      else
        match tryFormats (pyStripWS s.data) with
        | some d => some d
        | none => fb (pyStripWS s.data).asString
  | CellVal.vnum q =>
      match tryFormats (pyStripWS (ratStr q).data) with
      | some d => some d
      | none => fb (pyStripWS (ratStr q).data).asString

/-- A date cell after `df[col].apply(convert_to_yyyy_mm_dd)` followed by
`pd.to_datetime`: a datetime on success, `NaN` on failure. -/
def dateCell (fb : String → Option PDate) (v : CellVal) : CellVal :=
  match convertToYMD fb v with
  | some d => CellVal.vdate d
  | none => CellVal.vnull

/-! ### Vendor extraction: `strip_vendor` -/

def kwList : List (List Char) :=
  ["DES:".data, "from".data, "transfer".data, " in ".data, "Deposit".data, "ATM".data, ",".data]

def wordCharB (c : Char) : Bool := c.isAlphanum || c == '_'

def kwAt (cs : List Char) (j : Nat) : Bool := kwList.any (fun kw => kw.isPrefixOf (cs.drop j))

def matchFrom (cs : List Char) (i : Nat) : Bool :=
  match cs.drop i with
  | [] => false
  | c :: _ => wordCharB c && ((List.range (cs.length + 1)).any (fun j => decide (i + 1 ≤ j) && kwAt cs j))

def firstCapture (cs : List Char) : Option (List Char) :=
  match (List.range cs.length).find? (fun i => matchFrom cs i) with
  | none => none
  | some i =>
      let js := (List.range (cs.length + 1)).filter (fun j => decide (i + 1 ≤ j) && kwAt cs j)
      let jmax := js.foldr max 0
      some ((cs.drop i).take (jmax - i))

def sepB (c : Char) : Bool := !(wordCharB c) || c == '_'

mutual

def reSplitAux : List Char → List Char → List (List Char)
  | [], acc => [acc.reverse]
  | c :: cs, acc =>
      if sepB c then acc.reverse :: reSplitRun cs
      else reSplitAux cs (c :: acc)

def reSplitRun : List Char → List (List Char)
  | [] => [[]]
  | c :: cs => if sepB c then reSplitRun cs else reSplitAux cs [c]

end

def reSplit (l : List Char) : List (List Char) := reSplitAux l []

def pySplitAux : List Char → List Char → List (List Char)
  | [], acc => if acc.isEmpty then [] else [acc.reverse]
  | c :: cs, acc =>
      if isSpaceB c then
        (if acc.isEmpty then pySplitAux cs [] else acc.reverse :: pySplitAux cs [])
      else pySplitAux cs (c :: acc)

def pySplit (l : List Char) : List (List Char) := pySplitAux l []

def stripVendorCore (s : String) : String :=
  let strings := if s.data.length > 30 then s.data.take 30 else s.data
  let vendor :=
    match firstCapture strings with
    | some g => pyStripWS g
    | none =>
        match reSplit strings with
        | [] => "Unknown".data
        | w :: _ => w
  let vendor2 :=
    if vendor.length < 5 then
      (let ws := pySplit strings
       if ws.length > 1 then List.intercalate [' '] (ws.take 2) else strings)
    else vendor
  vendor2.asString

/-- Model of `strip_vendor` (lines 319-353 of `main.py`): `"Unknown"` for
null input, otherwise the heuristic extraction from `str(x)`. -/
def stripVendor (v : CellVal) : String :=
  match v with
  | CellVal.vnull => "Unknown"
  | CellVal.vstr s => stripVendorCore s
  | CellVal.vnum q => stripVendorCore (ratStr q)
  | CellVal.vdate d => stripVendorCore (dateStr d)

/-- The per-cell vendor lambda of `csv_reader` line 180:
`strip_vendor(x) if pd.notna(x) else ""`. -/
def vendorCell (v : CellVal) : CellVal :=
  match v with
  | CellVal.vnull => CellVal.vstr ""
  | v => CellVal.vstr (stripVendor v)

/-! ### Dataframe model and `csv_reader` -/

/-- A pandas dataframe: named columns and positional rows. -/
structure DF where
  cols : List String
  rows : List (List CellVal)

/-- Index of a column name in the column list (first occurrence). -/
def colIdx : List String → String → Option Nat
  | [], _ => none
  | c' :: t, c => if c' == c then some 0 else (colIdx t c).map (· + 1)

/-- The value of column `c` in row `r` (`NaN` when absent, as `row.get`). -/
def getCell (cols : List String) (r : List CellVal) (c : String) : CellVal :=
  match colIdx cols c with
  | some i => r.getD i CellVal.vnull
  | none => CellVal.vnull

/-- Column presence test `c in df.columns`. -/
def hasCol (df : DF) (c : String) : Bool := (colIdx df.cols c).isSome

/-- Column assignment `df[c] = <series computed per row>`: overwrite in place
when the column exists, else append it. -/
def setCol (df : DF) (c : String) (f : List CellVal → CellVal) : DF :=
  match colIdx df.cols c with
  | some i => { df with rows := df.rows.map (fun r => r.set i (f r)) }
  | none => { cols := df.cols ++ [c], rows := df.rows.map (fun r => r ++ [f r]) }

/-- `df[c] = df[c].apply(g)`. -/
def applyCol (df : DF) (c : String) (g : CellVal → CellVal) : DF :=
  setCol df c (fun r => g (getCell df.cols r c))

/-- `df = df.dropna(subset=[c])`. -/
def dropnaSubset (df : DF) (c : String) : DF :=
  { df with rows := df.rows.filter (fun r => !(getCell df.cols r c == CellVal.vnull)) }

/-- Rectangularity: every row has one cell per column. -/
def dfRect (df : DF) : Prop := ∀ r ∈ df.rows, r.length = df.cols.length

/-- `fillna(0)` on one cell. -/
def fillna0 : CellVal → CellVal
  | CellVal.vnull => CellVal.vnum 0
  | v => v

/-- Subtraction of two numeric cells (pandas float arithmetic; non-numeric
operands are outside the modelled fragment and give `NaN`). -/
def cellSub : CellVal → CellVal → CellVal
  | CellVal.vnum a, CellVal.vnum b => CellVal.vnum (a - b)
  | _, _ => CellVal.vnull

/-- Negation of a numeric cell (`-df["amount_d"]`); `NaN` propagates. -/
def cellNeg : CellVal → CellVal
  | CellVal.vnum a => CellVal.vnum (-a)
  | _ => CellVal.vnull

/-- The comparison `x >= 0` of the type lambda; false on `NaN`. -/
def cellGe0 : CellVal → Bool
  | CellVal.vnum a => decide (0 ≤ a)
  | _ => false

/-- Lines 153-154: copy `posting_date` into a missing `transaction_date`. -/
def copyTransactionDate (df : DF) : DF :=
  if !(hasCol df "transaction_date") && hasCol df "posting_date" then
    setCol df "transaction_date" (fun r => getCell df.cols r "posting_date")
  else df

/-- Lines 156-163 for one date column: convert cells, then drop rows whose
conversion failed (the subsequent `pd.to_datetime` is fused into `dateCell`,
which already yields datetime cells). -/
def dateStep (fb : String → Option PDate) (df : DF) (c : String) : DF :=
  if hasCol df c then dropnaSubset (applyCol df c (dateCell fb)) c else df

/-- Lines 166-172: build the unified `amount` column. -/
def amountStep (df : DF) : DF :=
  if hasCol df "amount_c" || hasCol df "amount_d" then
    (if hasCol df "amount_c" && hasCol df "amount_d" then
      setCol df "amount" (fun r =>
        cellSub (fillna0 (getCell df.cols r "amount_c")) (fillna0 (getCell df.cols r "amount_d")))
    else if hasCol df "amount_c" then
      setCol df "amount" (fun r => getCell df.cols r "amount_c")
    else
      setCol df "amount" (fun r => cellNeg (getCell df.cols r "amount_d")))
  else df

/-- Lines 174-175: derive `type` from the amount sign when absent. -/
def typeStep (df : DF) : DF :=
  if !(hasCol df "type") && hasCol df "amount" then
    setCol df "type" (fun r =>
      CellVal.vstr (if cellGe0 (getCell df.cols r "amount") then "Credit" else "Debit"))
  else df

/-- Lines 177-178: default `category`. -/
def categoryStep (df : DF) : DF :=
  if !(hasCol df "category") then
    setCol df "category" (fun _ => CellVal.vstr "No Category Mentioned")
  else df

/-- Lines 179-180: derive `vendorName` from `description`. -/
def vendorStep (df : DF) : DF :=
  if hasCol df "description" then
    setCol df "vendorName" (fun r => vendorCell (getCell df.cols r "description"))
  else df

/-- The `csv_reader` pipeline after header mapping (lines 149-181), with the
free-form date fallback parser `fb` as a parameter. -/
def csvReaderFrom (fb : String → Option PDate) (df : DF) : DF :=
  vendorStep (categoryStep (typeStep (amountStep
    (dateStep fb (dateStep fb (copyTransactionDate df) "posting_date") "transaction_date"))))

/-- `mapper` on a loaded dataframe (lines 183-251): rename columns, then
coerce `amount_c`/`amount_d` to numbers. -/
def mapperDf (hm : List (String × List String)) (df : DF) : DF :=
  let df2 : DF := { cols := mapperCols hm df.cols, rows := df.rows }
  let df3 := if hasCol df2 "amount_c" then
      applyCol df2 "amount_c" (fun v => toNumericCell (processString v)) else df2
  if hasCol df3 "amount_d" then
    applyCol df3 "amount_d" (fun v => toNumericCell (processString v)) else df3

/-- Full `csv_reader` on a raw dataframe. -/
def csvReader (hm : List (String × List String)) (fb : String → Option PDate) (raw : DF) : DF :=
  csvReaderFrom fb (mapperDf hm raw)

/-- Reindexing of one row onto a combined column list (`pd.concat` aligns by
name and fills `NaN`). -/
def reindexRow (oldCols newCols : List String) (r : List CellVal) : List CellVal :=
  newCols.map (fun c => getCell oldCols r c)

/-- `pd.concat([a, b])`: union of columns (first dataframe's order first),
rows stacked. -/
def concatDF (a b : DF) : DF :=
  let cols := a.cols ++ b.cols.filter (fun c => !(colIdx a.cols c).isSome)
  { cols := cols
    rows := a.rows.map (reindexRow a.cols cols) ++ b.rows.map (reindexRow b.cols cols) }

/-- The `combined_df` accumulation of `read_all_csv_from_folder`. -/
def combineDFs (dfs : List DF) : DF :=
  dfs.foldl concatDF { cols := [], rows := [] }

/-- Synonym table for the zero-amount fixture. -/
def hm3 : List (String × List String) := [("transaction_date", ["Transaction Date"])]

/-- A raw dataframe with a valid date and a zero credit amount. -/
def dfZero : DF :=
  { cols := ["Transaction Date", "Credit"]
    rows := [[CellVal.vstr "2024-03-14", CellVal.vstr "0"]] }

/-- A fallback parser that always fails (`pd.to_datetime` raising). -/
def fbNone : String → Option PDate := fun _ => none

/-- A mapped dataframe with no date columns. -/
def dfNoDates : DF := { cols := ["amount_c"], rows := [[CellVal.vnum 5]] }

/-- Correspondence between input and output rows of a pipeline step: every
output row stems from an input row and agrees with it outside `mods`. -/
def corrOutside (a b : DF) (mods : List String) : Prop :=
  ∀ row2 ∈ b.rows, ∃ row ∈ a.rows,
    ∀ c, c ∉ mods → getCell b.cols row2 c = getCell a.cols row c

/-- A numeric-or-null cell, as the `to_numeric` coercion produces. -/
def numOrNull (v : CellVal) : Prop := v = CellVal.vnull ∨ ∃ q, v = CellVal.vnum q

/-- Numeric value of a cell with `NaN` read as 0 (`fillna(0)` semantics). -/
def asQ : CellVal → Rat
  | CellVal.vnum q => q
  | _ => 0

/-- Witness dataframe for the amount sign law. -/
def dfC1 : DF := { cols := ["amount_c", "amount_d"], rows := [[CellVal.vnum 5, CellVal.vnull]] }

/-- Witness dataframe for date-failure row dropping. -/
def dfC8 : DF :=
  { cols := ["posting_date"]
    rows := [[CellVal.vstr "2024-03-14"], [CellVal.vstr "garbage"]] }

/-! ### Helper lemmas about the persistence loop -/

theorem find?_isSome_iff_exists (l : List TxnRec) (p : TxnRec → Bool) :
    (l.find? p).isSome = true ↔ ∃ t ∈ l, p t = true := by
  induction l with
  | nil => simp [List.find?]
  | cons a l ih =>
      by_cases h : p a
      · simp [List.find?, h]
      · simp only [List.find?, h, Bool.false_eq_true, if_false]
        simp only [ih, List.mem_cons]
        constructor
        · rintro ⟨t, ht, hp⟩
          exact ⟨t, Or.inr ht, hp⟩
        · rintro ⟨t, ht | ht, hp⟩
          · cases ht; exact absurd hp (by simp [h])
          · exact ⟨t, ht, hp⟩

theorem matchesKey_mkTxn (r : PRow) (vid : Nat) : matchesKey r (mkTxn r vid) = true := by
  simp [matchesKey, mkTxn]

theorem storeTransactionInDb_mem_mono (st : Store) (r : PRow) (t : TxnRec)
    (h : t ∈ st.txns) : t ∈ (storeTransactionInDb st r).2.txns := by
  unfold storeTransactionInDb
  by_cases hd : (st.txns.find? (matchesKey r)).isSome
  · simpa [hd] using h
  · simp only [hd, if_false, Bool.false_eq_true]
    cases hv : findVendor st r.vendorName with
    | some v => simp [h]
    | none =>
        cases r.vendorName with
        | vnull => simpa using h
        | vstr n => simp [h]
        | vnum q => simpa using h
        | vdate d => simpa using h

theorem storeRows_mem_mono (rows : List PRow) (st : Store) (acc : TransactionStats)
    (t : TxnRec) (h : t ∈ st.txns) : t ∈ (storeRows st rows acc).2.txns := by
  induction rows generalizing st acc with
  | nil => simpa [storeRows] using h
  | cons r rs ih =>
      have hmono := storeTransactionInDb_mem_mono st r t h
      rcases hres : storeTransactionInDb st r with ⟨res, st'⟩
      rw [hres] at hmono
      cases res <;> simp only [storeRows, hres] <;> exact ih st' _ hmono

theorem storeTransactionInDb_accepted_mem (st : Store) (r : PRow) (st' : Store)
    (h : storeTransactionInDb st r = (StoreResult.accepted, st')) :
    ∃ t ∈ st'.txns, matchesKey r t = true := by
  unfold storeTransactionInDb at h
  by_cases hd : (st.txns.find? (matchesKey r)).isSome
  · simp [hd] at h
  · simp only [hd, if_false, Bool.false_eq_true] at h
    cases hv : findVendor st r.vendorName with
    | some v =>
        rw [hv] at h
        simp only [Prod.mk.injEq] at h
        refine ⟨mkTxn r v.vendorId, ?_, matchesKey_mkTxn r v.vendorId⟩
        rw [← h.2]
        simp
    | none =>
        rw [hv] at h
        cases hn : r.vendorName with
        | vstr n =>
            rw [hn] at h
            simp only [Prod.mk.injEq] at h
            refine ⟨mkTxn r (st.vendors.length + 1), ?_, matchesKey_mkTxn r _⟩
            rw [← h.2]
            simp
        | vnull => rw [hn] at h; simp at h
        | vnum q => rw [hn] at h; simp at h
        | vdate d => rw [hn] at h; simp at h

theorem storeRows_total (rows : List PRow) (st : Store) (acc : TransactionStats) :
    (storeRows st rows acc).1.total = acc.total + rows.length := by
  induction rows generalizing st acc with
  | nil => simp [storeRows]
  | cons r rs ih =>
      rcases hres : storeTransactionInDb st r with ⟨res, st'⟩
      cases res <;> simp only [storeRows, hres] <;> rw [ih] <;> simp <;> omega

theorem storeRows_sum (rows : List PRow) (st : Store) (acc : TransactionStats) :
    (storeRows st rows acc).1.successful + (storeRows st rows acc).1.duplicates +
      (storeRows st rows acc).1.failed =
    acc.successful + acc.duplicates + acc.failed + rows.length := by
  induction rows generalizing st acc with
  | nil => simp [storeRows]
  | cons r rs ih =>
      rcases hres : storeTransactionInDb st r with ⟨res, st'⟩
      cases res <;> simp only [storeRows, hres] <;> rw [ih] <;> simp <;> omega

theorem storeRows_successful_le (rows : List PRow) (st : Store) (acc : TransactionStats) :
    (storeRows st rows acc).1.successful ≤ acc.successful + rows.length := by
  induction rows generalizing st acc with
  | nil => simp [storeRows]
  | cons r rs ih =>
      rcases hres : storeTransactionInDb st r with ⟨res, st'⟩
      cases res <;> simp only [storeRows, hres] <;>
        exact le_trans (ih st' _) (by simp; try omega)

theorem storeRows_all_keys (rows : List PRow) (st : Store) (acc : TransactionStats)
    (h : (storeRows st rows acc).1.successful = acc.successful + rows.length) :
    ∀ r ∈ rows, ∃ t ∈ (storeRows st rows acc).2.txns, matchesKey r t = true := by
  induction rows generalizing st acc with
  | nil => intro r hr; cases hr
  | cons r rs ih =>
      rcases hres : storeTransactionInDb st r with ⟨res, st'⟩
      cases res with
      | accepted =>
          intro r' hr'
          rcases List.mem_cons.1 hr' with rfl | hmem
          · rcases storeTransactionInDb_accepted_mem st r' st' hres with ⟨t, ht, hk⟩
            refine ⟨t, ?_, hk⟩
            simp only [storeRows, hres]
            exact storeRows_mem_mono rs st' _ t ht
          · simp only [storeRows, hres] at h ⊢
            refine ih st' _ ?_ r' hmem
            rw [h]
            simp
            try omega
      | duplicate =>
          exfalso
          simp only [storeRows, hres] at h
          have hle := storeRows_successful_le rs st'
            { total := acc.total + 1, successful := acc.successful,
              duplicates := acc.duplicates + 1, failed := acc.failed }
          rw [h] at hle
          simp at hle
          try omega
      | errored =>
          exfalso
          simp only [storeRows, hres] at h
          have hle := storeRows_successful_le rs st'
            { total := acc.total + 1, successful := acc.successful,
              duplicates := acc.duplicates, failed := acc.failed + 1 }
          rw [h] at hle
          simp at hle
          try omega

theorem storeRows_all_dup (rows : List PRow) (st : Store) (acc : TransactionStats)
    (h : ∀ r ∈ rows, ∃ t ∈ st.txns, matchesKey r t = true) :
    storeRows st rows acc =
      ({ acc with total := acc.total + rows.length,
                  duplicates := acc.duplicates + rows.length }, st) := by
  induction rows generalizing acc with
  | nil => simp [storeRows]
  | cons r rs ih =>
      have hd : (st.txns.find? (matchesKey r)).isSome = true :=
        (find?_isSome_iff_exists st.txns (matchesKey r)).2 (h r (by simp))
      have hstep : storeTransactionInDb st r = (StoreResult.duplicate, st) := by
        unfold storeTransactionInDb
        simp [hd]
      simp only [storeRows, hstep]
      rw [ih _ (fun r' hr' => h r' (by simp [hr']))]
      congr 1
      simp
      omega

/-! ### Claim theorems about the deduplication gate and statistics -/

/-- C9: after an ingestion run over any combined batch, the returned
statistics satisfy `total = successful + duplicates + failed`, and `total`
counts each persisted row exactly once. -/
theorem ingest_stats_partition (st : Store) (rows : List PRow) :
    (ingestRun st rows).1.total = rows.length ∧
    (ingestRun st rows).1.total =
      (ingestRun st rows).1.successful + (ingestRun st rows).1.duplicates +
        (ingestRun st rows).1.failed := by
  have h1 := storeRows_total rows st
    { total := 0, successful := 0, duplicates := 0, failed := 0 }
  have h2 := storeRows_sum rows st
    { total := 0, successful := 0, duplicates := 0, failed := 0 }
  simp only [ingestRun]
  simp at h1 h2
  omega

/-- C10: a row classified `Duplicate` leaves the persistent store completely
unchanged: no transaction is inserted and no vendor is created or reused. -/
theorem duplicate_leaves_store_unchanged (st : Store) (r : PRow) (st' : Store)
    (h : storeTransactionInDb st r = (StoreResult.duplicate, st')) : st' = st := by
  unfold storeTransactionInDb at h
  by_cases hd : (st.txns.find? (matchesKey r)).isSome
  · simp only [hd, if_true, Prod.mk.injEq] at h
    exact h.2.symm
  · simp only [hd, if_false, Bool.false_eq_true] at h
    cases hv : findVendor st r.vendorName with
    | some v => rw [hv] at h; simp at h
    | none =>
        rw [hv] at h
        cases hn : r.vendorName with
        | vstr n => rw [hn] at h; simp at h
        | vnull => rw [hn] at h; simp at h
        | vnum q => rw [hn] at h; simp at h
        | vdate d => rw [hn] at h; simp at h

/-- C6: a presented row is classified `Duplicate` iff the store already holds
a transaction with the same (`transaction_date`, `posting_date`, `amount`,
`description`) tuple; otherwise (for a row carrying a string vendor name) it
is `Accepted` and inserted, with the vendor looked up by exact name and
created on first occurrence. -/
theorem dedup_gate_classification (st : Store) (r : PRow) (n : String)
    (hv : r.vendorName = CellVal.vstr n) :
    ((storeTransactionInDb st r).1 = StoreResult.duplicate ↔
      ∃ t ∈ st.txns, matchesKey r t = true) ∧
    ((¬ ∃ t ∈ st.txns, matchesKey r t = true) →
      (storeTransactionInDb st r).1 = StoreResult.accepted ∧
      ((∃ v, findVendor st r.vendorName = some v ∧
          (storeTransactionInDb st r).2 =
            { st with txns := st.txns ++ [mkTxn r v.vendorId] }) ∨
       (findVendor st r.vendorName = none ∧
          (storeTransactionInDb st r).2 =
            { txns := st.txns ++ [mkTxn r (st.vendors.length + 1)]
              vendors := st.vendors ++
                [{ vendorId := st.vendors.length + 1, vendorName := n,
                   vendorCode := (n.data.take 10).asString }] }))) := by
  by_cases hd : (st.txns.find? (matchesKey r)).isSome
  · have hex := (find?_isSome_iff_exists st.txns (matchesKey r)).1 hd
    constructor
    · unfold storeTransactionInDb
      simp [hd, hex]
    · intro hne; exact absurd hex hne
  · have hnex : ¬ ∃ t ∈ st.txns, matchesKey r t = true := fun hex =>
      hd ((find?_isSome_iff_exists st.txns (matchesKey r)).2 hex)
    unfold storeTransactionInDb
    cases hfv : findVendor st r.vendorName with
    | some v =>
        constructor
        · simp [hd, hfv, hnex]
        · intro _
          constructor
          · simp [hd, hfv]
          · exact Or.inl ⟨v, rfl, by simp [hd, hfv]⟩
    | none =>
        rw [hv]
        rw [hv] at hfv
        constructor
        · simp [hd, hfv, hnex]
        · intro _
          constructor
          · simp [hd, hfv]
          · refine Or.inr ⟨rfl, ?_⟩
            simp [hd, hfv]

/-- C7: if one run persists every row successfully, a second run over the
identical rows classifies all of them as duplicates: in the second run's
statistics `duplicates = total` and `successful = 0`. -/
theorem ingest_idempotent (st : Store) (rows : List PRow)
    (h : (ingestRun st rows).1.successful = rows.length) :
    (ingestRun (ingestRun st rows).2 rows).1.duplicates =
        (ingestRun (ingestRun st rows).2 rows).1.total ∧
      (ingestRun (ingestRun st rows).2 rows).1.successful = 0 ∧
      (ingestRun (ingestRun st rows).2 rows).1.total = rows.length := by
  have hkeys := storeRows_all_keys rows st
    { total := 0, successful := 0, duplicates := 0, failed := 0 }
    (by simpa [ingestRun] using h)
  have hdup := storeRows_all_dup rows (ingestRun st rows).2
    { total := 0, successful := 0, duplicates := 0, failed := 0 }
    (by intro r hr; simpa [ingestRun] using hkeys r hr)
  simp only [ingestRun] at hdup ⊢
  rw [hdup]
  simp

theorem duplicate_leaves_store_unchanged_witness :
    (storeTransactionInDb storeW rowW).2 = storeW ∧
      (storeTransactionInDb storeW rowW).1 = StoreResult.duplicate :=
  ⟨duplicate_leaves_store_unchanged storeW rowW _ (by decide), by decide⟩

theorem dedup_gate_classification_witness :
    (storeTransactionInDb emptyStore rowW).1 = StoreResult.accepted ∧
      (storeTransactionInDb storeW rowW).1 = StoreResult.duplicate := by
  constructor
  · exact ((dedup_gate_classification emptyStore rowW "COFFEE SHOP" rfl).2 (by decide)).1
  · exact (dedup_gate_classification storeW rowW "COFFEE SHOP" rfl).1.2 (by decide)

theorem ingest_idempotent_witness :
    (ingestRun (ingestRun emptyStore [rowW]).2 [rowW]).1.duplicates =
        (ingestRun (ingestRun emptyStore [rowW]).2 [rowW]).1.total ∧
      (ingestRun (ingestRun emptyStore [rowW]).2 [rowW]).1.successful = 0 ∧
      (ingestRun (ingestRun emptyStore [rowW]).2 [rowW]).1.total = [rowW].length :=
  ingest_idempotent emptyStore [rowW] (by decide)

/-! ### Header mapper lemmas -/

theorem decodeChars_nil (a : Nat) : decodeChars [] a = a := rfl

theorem decodeChars_cons (c : Char) (cs : List Char) (a : Nat) :
    decodeChars (c :: cs) a = decodeChars cs (10 * a + (c.toNat - 48)) := rfl

theorem decodeChars_affine (l : List Char) (a : Nat) :
    decodeChars l a = a * 10 ^ l.length + decodeChars l 0 := by
  induction l generalizing a with
  | nil => simp [decodeChars_nil]
  | cons c cs ih =>
      rw [decodeChars_cons, decodeChars_cons, ih, ih (10 * 0 + (c.toNat - 48))]
      simp only [List.length_cons, pow_succ]
      ring

theorem digitChar_decode (d : Nat) (h : d < 10) : (Nat.digitChar d).toNat - 48 = d := by
  interval_cases d <;> decide

theorem decodeChars_toDigitsCore (f : Nat) : ∀ (n : Nat) (acc : List Char), n < f →
    decodeChars (Nat.toDigitsCore 10 f n acc) 0 = n * 10 ^ acc.length + decodeChars acc 0 := by
  induction f with
  | zero => intro n acc h; omega
  | succ f ih =>
      intro n acc h
      rw [Nat.toDigitsCore]
      by_cases h0 : n / 10 = 0
      · have hn : n < 10 := by omega
        simp only [h0, if_true]
        rw [decodeChars_cons, decodeChars_affine, digitChar_decode _ (Nat.mod_lt n (by norm_num))]
        have hmod : n % 10 = n := Nat.mod_eq_of_lt hn
        rw [hmod]
        ring
      · simp only [h0, if_false]
        have hlt : n / 10 < f := by
          have h1 : n / 10 < n := Nat.div_lt_self (by omega) (by norm_num)
          omega
        rw [ih (n / 10) _ hlt]
        rw [decodeChars_cons, decodeChars_affine, digitChar_decode _ (Nat.mod_lt n (by omega))]
        simp only [List.length_cons, pow_succ]
        have hsplit : 10 * (n / 10) + n % 10 = n := Nat.div_add_mod n 10
        generalize hq : n / 10 = q at hsplit ⊢
        generalize hr : n % 10 = r at hsplit ⊢
        rw [← hsplit]
        ring

theorem decodeChars_repr (n : Nat) : decodeChars (Nat.repr n).data 0 = n := by
  have hdata : (Nat.repr n).data = Nat.toDigitsCore 10 (n + 1) n [] := rfl
  rw [hdata, decodeChars_toDigitsCore (n + 1) n [] (by omega)]
  simp [decodeChars_nil]

theorem natRepr_injective : Function.Injective Nat.repr := by
  intro a b h
  have h2 := congrArg (fun s => decodeChars s.data 0) h
  simpa [decodeChars_repr] using h2

theorem string_eq_of_data (a b : String) (h : a.data = b.data) : a = b := by
  cases a; cases b; simp_all

theorem sfx_injective (base : String) : Function.Injective (sfx base) := by
  intro a b h
  have hd := congrArg String.data h
  simp only [sfx, String.data_append] at hd
  have h2 := List.append_cancel_left hd
  exact natRepr_injective (string_eq_of_data _ _ h2)

theorem exists_fresh (cand : String) (seen : Finset String) (k : Nat) :
    ∃ i, i < seen.card + 1 ∧ sfx cand (k + i) ∉ seen := by
  by_contra hc
  push_neg at hc
  have hsub : (Finset.range (seen.card + 1)).image (fun i => sfx cand (k + i)) ⊆ seen := by
    intro x hx
    rcases Finset.mem_image.1 hx with ⟨i, hi, rfl⟩
    exact hc i (Finset.mem_range.1 hi)
  have hinj : Function.Injective (fun i => sfx cand (k + i)) := by
    intro a b h
    have := sfx_injective cand h
    omega
  have hcard := Finset.card_le_card hsub
  rw [Finset.card_image_of_injective _ hinj, Finset.card_range] at hcard
  omega

theorem freshFrom_spec (cand : String) (seen : Finset String) :
    ∀ (f k : Nat), (∃ i, i < f ∧ sfx cand (k + i) ∉ seen) →
      freshFrom cand seen f k ∉ seen ∧
      ∃ j, k ≤ j ∧ freshFrom cand seen f k = sfx cand j ∧
        ∀ m, k ≤ m → m < j → sfx cand m ∈ seen := by
  intro f
  induction f with
  | zero => intro k ⟨i, hi, _⟩; omega
  | succ f ih =>
      intro k ⟨i, hi, hnot⟩
      by_cases hmem : sfx cand k ∈ seen
      · have hi0 : i ≠ 0 := by rintro rfl; simp at hnot; exact hnot hmem
        have hex : ∃ iq, iq < f ∧ sfx cand (k + 1 + iq) ∉ seen := by
          refine ⟨i - 1, by omega, ?_⟩
          have heq : k + 1 + (i - 1) = k + i := by omega
          rw [heq]
          exact hnot
        have hrec := ih (k + 1) hex
        rw [freshFrom, if_pos hmem]
        refine ⟨hrec.1, ?_⟩
        rcases hrec.2 with ⟨j, hj1, hj2, hj3⟩
        refine ⟨j, by omega, hj2, ?_⟩
        intro m hm1 hm2
        rcases Nat.eq_or_lt_of_le hm1 with rfl | hlt
        · exact hmem
        · exact hj3 m (by omega) hm2
      · rw [freshFrom, if_neg hmem]
        exact ⟨hmem, k, le_refl k, rfl,
          fun m hm1 hm2 => absurd (lt_of_le_of_lt hm1 hm2) (lt_irrefl k)⟩

theorem freshName_spec (cand : String) (seen : Finset String) :
    freshName cand seen ∉ seen ∧
    ∃ j, 1 ≤ j ∧ freshName cand seen = sfx cand j ∧
      ∀ m, 1 ≤ m → m < j → sfx cand m ∈ seen := by
  rcases exists_fresh cand seen 1 with ⟨i, hi, hnot⟩
  exact freshFrom_spec cand seen (seen.card + 1) 1 ⟨i, hi, hnot⟩

theorem mapCols_length (rev : String → Option String) (hdrs : List String)
    (seen : Finset String) : (mapCols rev hdrs seen).length = hdrs.length := by
  induction hdrs generalizing seen with
  | nil => rfl
  | cons c cs ih => simp [mapCols, ih]

theorem mapCols_avoid_nodup (rev : String → Option String) (hdrs : List String)
    (seen : Finset String) :
    (∀ x ∈ mapCols rev hdrs seen, x ∉ seen) ∧ (mapCols rev hdrs seen).Nodup := by
  induction hdrs generalizing seen with
  | nil => simp [mapCols]
  | cons c cs ih =>
      simp only [mapCols]
      set cand := candidateName rev c with hcand
      set name := if cand ∈ seen then freshName cand seen else cand with hname
      have hnotin : name ∉ seen := by
        rw [hname]
        by_cases hmem : cand ∈ seen
        · simp only [hmem, if_true]
          exact (freshName_spec cand seen).1
        · simp [hmem]
      rcases ih (insert name seen) with ⟨havoid, hnodup⟩
      refine ⟨?_, ?_⟩
      · intro x hx
        rcases List.mem_cons.1 hx with rfl | hmem
        · exact hnotin
        · intro hxs
          exact havoid x hmem (Finset.mem_insert_of_mem hxs)
      · rw [List.nodup_cons]
        refine ⟨?_, hnodup⟩
        intro hmem
        exact havoid name hmem (Finset.mem_insert_self name seen)

theorem mapCols_getD (rev : String → Option String) (hdrs : List String)
    (seen : Finset String) (i : Nat) (hi : i < hdrs.length) :
    (mapCols rev hdrs seen).getD i "" =
      (let cand := candidateName rev (hdrs.getD i "")
       let s := seen ∪ ((mapCols rev hdrs seen).take i).toFinset
       if cand ∈ s then freshName cand s else cand) := by
  induction hdrs generalizing seen i with
  | nil => simp at hi
  | cons c cs ih =>
      cases i with
      | zero => simp [mapCols]
      | succ i =>
          have hi' : i < cs.length := by simpa using hi
          simp only [mapCols, List.getD_cons_succ, List.take_succ_cons, List.toFinset_cons]
          rw [ih (insert _ seen) i hi']
          simp only [Finset.insert_union, Finset.union_insert]

/-- C2: for every raw header row and synonym table, the header mapper
outputs one name per input column with no two output names equal, and on a
collision with an earlier assignment it appends the smallest unused integer
suffix `_1`, `_2`, ... -/
theorem header_mapper_unique (hm : List (String × List String)) (cols : List String) :
    (mapperCols hm cols).length = cols.length ∧
    (mapperCols hm cols).Nodup ∧
    ∀ i, i < cols.length →
      (candidateName (revOf hm) ((cols.map normHdr).getD i "") ∈
          ((mapperCols hm cols).take i).toFinset →
        ∃ k, 1 ≤ k ∧
          (mapperCols hm cols).getD i "" =
            sfx (candidateName (revOf hm) ((cols.map normHdr).getD i "")) k ∧
          sfx (candidateName (revOf hm) ((cols.map normHdr).getD i "")) k ∉
            ((mapperCols hm cols).take i).toFinset ∧
          ∀ m, 1 ≤ m → m < k →
            sfx (candidateName (revOf hm) ((cols.map normHdr).getD i "")) m ∈
              ((mapperCols hm cols).take i).toFinset) ∧
      (candidateName (revOf hm) ((cols.map normHdr).getD i "") ∉
          ((mapperCols hm cols).take i).toFinset →
        (mapperCols hm cols).getD i "" =
          candidateName (revOf hm) ((cols.map normHdr).getD i "")) := by
  refine ⟨?_, ?_, ?_⟩
  · rw [mapperCols, mapCols_length, List.length_map]
  · exact (mapCols_avoid_nodup (revOf hm) (cols.map normHdr) ∅).2
  · intro i hi
    have hi' : i < (cols.map normHdr).length := by simpa using hi
    have hchar := mapCols_getD (revOf hm) (cols.map normHdr) ∅ i hi'
    simp only [Finset.empty_union] at hchar
    rw [mapperCols]
    constructor
    · intro hmem
      rw [hchar]
      rw [if_pos hmem]
      rcases freshName_spec (candidateName (revOf hm) ((cols.map normHdr).getD i ""))
        (((mapCols (revOf hm) (cols.map normHdr) ∅).take i).toFinset) with ⟨hn1, j, hj1, hj2, hj3⟩
      exact ⟨j, hj1, hj2, hj2 ▸ hn1, hj3⟩
    · intro hmem
      rw [hchar]
      rw [if_neg hmem]

theorem header_mapper_unique_witness :
    (mapperCols hmW colsW).length = colsW.length ∧
    (mapperCols hmW colsW).Nodup ∧
    (∃ k, 1 ≤ k ∧
      (mapperCols hmW colsW).getD 4 "" =
        sfx (candidateName (revOf hmW) ((colsW.map normHdr).getD 4 "")) k ∧
      sfx (candidateName (revOf hmW) ((colsW.map normHdr).getD 4 "")) k ∉
        ((mapperCols hmW colsW).take 4).toFinset ∧
      ∀ m, 1 ≤ m → m < k →
        sfx (candidateName (revOf hmW) ((colsW.map normHdr).getD 4 "")) m ∈
          ((mapperCols hmW colsW).take 4).toFinset) := by
  have h := header_mapper_unique hmW colsW
  exact ⟨h.1, h.2.1, (h.2.2 4 (by decide)).1 (by decide)⟩

/-- C4 counterexample: on the cells `"1,234"` and `"abc"` the code's
coercion (`process_string` then `to_numeric` with coercion) disagrees with
the spec-claimed cleaning: the code yields null where the spec claims 1234,
and null where the spec claims the original string is retained. -/
theorem numeric_coercion_counterexample :
    toNumericCell (processString (CellVal.vstr "1,234")) ≠ specCoerce "1,234" ∧
    toNumericCell (processString (CellVal.vstr "abc")) ≠ specCoerce "abc" := by
  with_unfolding_all decide

/-- C4 amended: numeric coercion strips exactly one leading dollar sign and
nothing else; strings that still fail to parse become null (`NaN`), never
the retained original string; there is no thousands-separator handling. -/
theorem numeric_coercion_amended (s : String) :
    toNumericCell (processString (CellVal.vstr s)) =
      (match parseFloat ((if "$".data.isPrefixOf s.data then s.data.drop 1 else s.data).asString) with
       | some q => CellVal.vnum q
       | none => CellVal.vnull) := by
  by_cases h0 : s = ""
  · subst h0; with_unfolding_all decide
  · by_cases hd : "$".data.isPrefixOf s.data
    · simp only [processString, toNumericCell, beq_iff_eq, h0, if_false, hd, if_true]
    · simp only [processString, toNumericCell, beq_iff_eq, h0, if_false, hd]
      have hax : (s.data).asString = s := by cases s; rfl
      simp [hax]

/-! ### Row filtering (claim C3) -/

theorem setCol_rows_length (df : DF) (c : String) (f : List CellVal → CellVal) :
    (setCol df c f).rows.length = df.rows.length := by
  unfold setCol
  cases colIdx df.cols c <;> simp

theorem amountStep_rows_length (df : DF) : (amountStep df).rows.length = df.rows.length := by
  unfold amountStep
  split_ifs <;> first | rfl | apply setCol_rows_length

theorem typeStep_rows_length (df : DF) : (typeStep df).rows.length = df.rows.length := by
  unfold typeStep
  split_ifs <;> first | rfl | apply setCol_rows_length

theorem categoryStep_rows_length (df : DF) : (categoryStep df).rows.length = df.rows.length := by
  unfold categoryStep
  split_ifs <;> first | rfl | apply setCol_rows_length

theorem vendorStep_rows_length (df : DF) : (vendorStep df).rows.length = df.rows.length := by
  unfold vendorStep
  split_ifs <;> first | rfl | apply setCol_rows_length

/-- C3 counterexample: a row whose unified `amount` is exactly zero survives
`csv_reader` and survives combination, so zero/null-amount filtering does
not exist in the code. -/
theorem row_filter_counterexample :
    (csvReader hm3 fbNone dfZero).rows.length = 1 ∧
    getCell (csvReader hm3 fbNone dfZero).cols
      ((csvReader hm3 fbNone dfZero).rows.getD 0 []) "amount" = CellVal.vnum 0 ∧
    (combineDFs [csvReader hm3 fbNone dfZero, csvReader hm3 fbNone dfZero]).rows.length = 2 ∧
    getCell (combineDFs [csvReader hm3 fbNone dfZero, csvReader hm3 fbNone dfZero]).cols
      ((combineDFs [csvReader hm3 fbNone dfZero, csvReader hm3 fbNone dfZero]).rows.getD 0 [])
      "amount" = CellVal.vnum 0 := by
  with_unfolding_all decide

/-- C3 amended: the pipeline drops rows only when a date column fails to
parse; no filtering on `amount` (null, non-numeric or zero) happens, so on a
dataframe without date columns every row survives whatever its amount. -/
theorem row_filter_amended (fb : String → Option PDate) (df : DF)
    (h1 : hasCol df "posting_date" = false)
    (h2 : hasCol df "transaction_date" = false) :
    (csvReaderFrom fb df).rows.length = df.rows.length := by
  have hcopy : copyTransactionDate df = df := by
    unfold copyTransactionDate
    simp [h1]
  have hd1 : dateStep fb df "posting_date" = df := by
    unfold dateStep
    simp [h1]
  have hd2 : dateStep fb df "transaction_date" = df := by
    unfold dateStep
    simp [h2]
  unfold csvReaderFrom
  rw [hcopy, hd1, hd2, vendorStep_rows_length, categoryStep_rows_length,
    typeStep_rows_length, amountStep_rows_length]

theorem row_filter_amended_witness :
    (csvReaderFrom fbNone dfNoDates).rows.length = dfNoDates.rows.length :=
  row_filter_amended fbNone dfNoDates (by decide) (by decide)

/-! ### Vendor extraction (claim C5) -/

theorem asString_ne_empty (l : List Char) (h : l ≠ []) : l.asString ≠ "" := by
  intro hc
  have h2 := congrArg String.data hc
  exact h h2

theorem take_ne_nil (l : List Char) (n : Nat) (h : l ≠ []) : l.take (n + 1) ≠ [] := by
  cases l with
  | nil => exact absurd rfl h
  | cons c t => simp [List.take]

theorem intercalate_two_ne (a b : List Char) : List.intercalate [' '] [a, b] ≠ [] := by
  have : List.intercalate [' '] [a, b] = a ++ ' ' :: b := by
    simp [List.intercalate, List.intersperse]
  rw [this]
  intro hc
  have := congrArg List.length hc
  simp at this

theorem data_ne_of_ne_empty (s : String) (h : s ≠ "") : s.data ≠ [] := by
  intro hc
  apply h
  cases s
  simp_all

theorem stripVendorCore_ne_empty (s : String) (h : s ≠ "") : stripVendorCore s ≠ "" := by
  have hdata : s.data ≠ [] := data_ne_of_ne_empty s h
  have hstr : (if s.data.length > 30 then s.data.take 30 else s.data) ≠ [] := by
    by_cases hl : s.data.length > 30
    · rw [if_pos hl]
      have h30 : (30 : Nat) = 29 + 1 := rfl
      rw [h30]
      exact take_ne_nil _ _ hdata
    · rw [if_neg hl]
      exact hdata
  rw [stripVendorCore]
  apply asString_ne_empty
  set strings := if s.data.length > 30 then s.data.take 30 else s.data with hstrings
  set vendor :=
    (match firstCapture strings with
    | some g => pyStripWS g
    | none =>
        match reSplit strings with
        | [] => "Unknown".data
        | w :: _ => w) with hvendor
  by_cases hv : vendor.length < 5
  · simp only [hv, if_true]
    by_cases hw : (pySplit strings).length > 1
    · simp only [hw, if_true]
      rcases hws : pySplit strings with _ | ⟨a, _ | ⟨b, ws'⟩⟩
      · rw [hws] at hw; simp at hw
      · rw [hws] at hw; simp at hw
      · simpa [List.take] using intercalate_two_ne a b
    · simp only [hw, if_false]
      exact hstr
  · simp only [hv, if_false]
    intro hc; rw [hc] at hv; simp at hv

/-- C5 counterexample: the empty-string description yields an empty vendor
name, and `csv_reader` maps a null description to `""`, not `"Unknown"`. -/
theorem vendor_nonempty_counterexample :
    stripVendor (CellVal.vstr "") = "" ∧ vendorCell CellVal.vnull = CellVal.vstr "" := by
  with_unfolding_all decide

/-- C5 amended: a direct `strip_vendor` call on a null description returns
`"Unknown"`, but inside `csv_reader` a null description becomes the empty
string; for non-empty string descriptions the derived vendor name is
non-empty, while the empty-string description yields the empty string. -/
theorem vendor_amended (s : String) (h : s ≠ "") :
    stripVendor CellVal.vnull = "Unknown" ∧
    vendorCell CellVal.vnull = CellVal.vstr "" ∧
    stripVendor (CellVal.vstr s) ≠ "" :=
  ⟨rfl, rfl, stripVendorCore_ne_empty s h⟩

theorem vendor_amended_witness :
    stripVendor CellVal.vnull = "Unknown" ∧
    vendorCell CellVal.vnull = CellVal.vstr "" ∧
    stripVendor (CellVal.vstr "Starbucks Coffee, Seattle") ≠ "" :=
  vendor_amended "Starbucks Coffee, Seattle" (by decide)

/-! ### Generic dataframe lemmas -/

theorem getD_set_eq (l : List CellVal) (i : Nat) (v d : CellVal) (h : i < l.length) :
    (l.set i v).getD i d = v := by
  induction l generalizing i with
  | nil => simp at h
  | cons a t ih =>
      cases i with
      | zero => rfl
      | succ i => exact ih i (by simpa using h)

theorem getD_set_ne (l : List CellVal) (i j : Nat) (v d : CellVal) (h : i ≠ j) :
    (l.set i v).getD j d = l.getD j d := by
  induction l generalizing i j with
  | nil => simp [List.set]
  | cons a t ih =>
      cases i with
      | zero =>
          cases j with
          | zero => exact absurd rfl h
          | succ j => rfl
      | succ i =>
          cases j with
          | zero => rfl
          | succ j => exact ih i j (by omega)

theorem getD_append_lt (l l2 : List CellVal) (j : Nat) (d : CellVal) (h : j < l.length) :
    (l ++ l2).getD j d = l.getD j d := by
  induction l generalizing j with
  | nil => simp at h
  | cons a t ih =>
      cases j with
      | zero => rfl
      | succ j => exact ih j (by simpa using h)

theorem getD_append_len (l : List CellVal) (x d : CellVal) :
    (l ++ [x]).getD l.length d = x := by
  induction l with
  | nil => rfl
  | cons a t ih => simp [ih]

theorem colIdx_cons_pos (a c : String) (t : List String) (h : (a == c) = true) :
    colIdx (a :: t) c = some 0 := by simp [colIdx, h]

theorem colIdx_cons_neg (a c : String) (t : List String) (h : (a == c) = false) :
    colIdx (a :: t) c = (colIdx t c).map (fun x => x + 1) := by simp [colIdx, h]

theorem colIdx_lt_length (cols : List String) (c : String) (i : Nat)
    (h : colIdx cols c = some i) : i < cols.length := by
  induction cols generalizing i with
  | nil => simp [colIdx] at h
  | cons a t ih =>
      cases ha : (a == c) with
      | true =>
          rw [colIdx_cons_pos a c t ha] at h
          have h0 : i = 0 := by exact (Option.some.inj h).symm
          subst h0
          simp
      | false =>
          rw [colIdx_cons_neg a c t ha] at h
          rcases Option.map_eq_some'.1 h with ⟨j, hj, rfl⟩
          have := ih j hj
          simpa using Nat.succ_lt_succ this

theorem colIdx_getD (cols : List String) (c : String) (i : Nat)
    (h : colIdx cols c = some i) : cols.getD i "" = c := by
  induction cols generalizing i with
  | nil => simp [colIdx] at h
  | cons a t ih =>
      cases ha : (a == c) with
      | true =>
          rw [colIdx_cons_pos a c t ha] at h
          have h0 : i = 0 := by exact (Option.some.inj h).symm
          subst h0
          simpa using ha
      | false =>
          rw [colIdx_cons_neg a c t ha] at h
          rcases Option.map_eq_some'.1 h with ⟨j, hj, rfl⟩
          simpa using ih j hj

theorem colIdx_append_some (cols l2 : List String) (c : String) (i : Nat)
    (h : colIdx cols c = some i) : colIdx (cols ++ l2) c = some i := by
  induction cols generalizing i with
  | nil => simp [colIdx] at h
  | cons a t ih =>
      rw [show (a :: t) ++ l2 = a :: (t ++ l2) from rfl]
      cases ha : (a == c) with
      | true =>
          rw [colIdx_cons_pos a c t ha] at h
          rw [colIdx_cons_pos a c (t ++ l2) ha]
          exact h
      | false =>
          rw [colIdx_cons_neg a c t ha] at h
          rcases Option.map_eq_some'.1 h with ⟨j, hj, rfl⟩
          rw [colIdx_cons_neg a c (t ++ l2) ha, ih j hj]
          rfl

theorem colIdx_append_self (cols : List String) (c : String)
    (h : colIdx cols c = none) : colIdx (cols ++ [c]) c = some cols.length := by
  induction cols with
  | nil => simp [colIdx]
  | cons a t ih =>
      rw [show (a :: t) ++ [c] = a :: (t ++ [c]) from rfl]
      cases ha : (a == c) with
      | true => rw [colIdx_cons_pos a c t ha] at h; cases h
      | false =>
          rw [colIdx_cons_neg a c t ha] at h
          have ht : colIdx t c = none := by
            cases hx : colIdx t c
            · rfl
            · rw [hx] at h; cases h
          rw [colIdx_cons_neg a c (t ++ [c]) ha, ih ht]
          rfl

theorem colIdx_append_none (cols : List String) (c c2 : String)
    (h : colIdx cols c2 = none) (hne : c2 ≠ c) : colIdx (cols ++ [c]) c2 = none := by
  induction cols with
  | nil =>
      rw [show ([] : List String) ++ [c] = [c] from rfl]
      have hb : (c == c2) = false := by
        cases hx : (c == c2)
        · rfl
        · exact absurd (eq_of_beq hx).symm hne
      rw [colIdx_cons_neg c c2 [] hb]
      rfl
  | cons a t ih =>
      rw [show (a :: t) ++ [c] = a :: (t ++ [c]) from rfl]
      cases ha : (a == c2) with
      | true => rw [colIdx_cons_pos a c2 t ha] at h; cases h
      | false =>
          rw [colIdx_cons_neg a c2 t ha] at h
          have ht : colIdx t c2 = none := by
            cases hx : colIdx t c2
            · rfl
            · rw [hx] at h; cases h
          rw [colIdx_cons_neg a c2 (t ++ [c]) ha, ih ht]
          rfl

theorem setCol_char (df : DF) (c : String) (f : List CellVal → CellVal) (hrect : dfRect df) :
    ∀ row2 ∈ (setCol df c f).rows, ∃ row ∈ df.rows,
      getCell (setCol df c f).cols row2 c = f row ∧
      ∀ c2, c2 ≠ c → getCell (setCol df c f).cols row2 c2 = getCell df.cols row c2 := by
  intro row2 hrow2
  cases hcol : colIdx df.cols c with
  | some i =>
      unfold setCol at hrow2 ⊢
      rw [hcol] at hrow2 ⊢
      simp only [List.mem_map] at hrow2
      rcases hrow2 with ⟨row, hrow, rfl⟩
      refine ⟨row, hrow, ?_, ?_⟩
      · show getCell df.cols (row.set i (f row)) c = f row
        unfold getCell
        rw [hcol]
        exact getD_set_eq row i (f row) CellVal.vnull
          ((hrect row hrow) ▸ colIdx_lt_length df.cols c i hcol)
      · intro c2 hne
        show getCell df.cols (row.set i (f row)) c2 = getCell df.cols row c2
        unfold getCell
        cases hcol2 : colIdx df.cols c2 with
        | some j =>
            have hij : i ≠ j := by
              intro hij
              subst hij
              have h1 := colIdx_getD df.cols c i hcol
              have h2 := colIdx_getD df.cols c2 i hcol2
              exact hne (h2 ▸ h1 ▸ rfl)
            exact getD_set_ne row i j (f row) CellVal.vnull hij
        | none => rfl
  | none =>
      unfold setCol at hrow2 ⊢
      rw [hcol] at hrow2 ⊢
      simp only [List.mem_map] at hrow2
      rcases hrow2 with ⟨row, hrow, rfl⟩
      refine ⟨row, hrow, ?_, ?_⟩
      · show getCell (df.cols ++ [c]) (row ++ [f row]) c = f row
        unfold getCell
        rw [colIdx_append_self df.cols c hcol]
        rw [← hrect row hrow]
        exact getD_append_len row (f row) CellVal.vnull
      · intro c2 hne
        show getCell (df.cols ++ [c]) (row ++ [f row]) c2 = getCell df.cols row c2
        unfold getCell
        cases hcol2 : colIdx df.cols c2 with
        | some j =>
            rw [colIdx_append_some df.cols [c] c2 j hcol2]
            exact getD_append_lt row [f row] j CellVal.vnull
              ((hrect row hrow) ▸ colIdx_lt_length df.cols c2 j hcol2)
        | none =>
            rw [colIdx_append_none df.cols c c2 hcol2 hne]

theorem setCol_rect (df : DF) (c : String) (f : List CellVal → CellVal) (hrect : dfRect df) :
    dfRect (setCol df c f) := by
  unfold setCol dfRect
  cases hcol : colIdx df.cols c with
  | some i =>
      intro r hr
      simp only [List.mem_map] at hr
      rcases hr with ⟨row, hrow, rfl⟩
      simpa using hrect row hrow
  | none =>
      intro r hr
      simp only [List.mem_map] at hr
      rcases hr with ⟨row, hrow, rfl⟩
      simp [hrect row hrow]

theorem setCol_cols_some (df : DF) (c : String) (f : List CellVal → CellVal) (i : Nat)
    (h : colIdx df.cols c = some i) : (setCol df c f).cols = df.cols := by
  unfold setCol
  rw [h]

theorem dropna_rect (df : DF) (c : String) (hrect : dfRect df) : dfRect (dropnaSubset df c) := by
  unfold dropnaSubset dfRect
  intro r hr
  exact hrect r (List.mem_of_mem_filter hr)

theorem dropna_char (df : DF) (c : String) :
    ∀ row2 ∈ (dropnaSubset df c).rows, row2 ∈ df.rows ∧
      ¬(getCell df.cols row2 c == CellVal.vnull) = true := by
  intro row2 hrow2
  unfold dropnaSubset at hrow2
  simp only [List.mem_filter] at hrow2
  exact ⟨hrow2.1, by simpa using hrow2.2⟩

theorem dropna_cols (df : DF) (c : String) : (dropnaSubset df c).cols = df.cols := rfl

/-! ### Step correspondence lemmas -/

theorem corr_refl (a : DF) (mods : List String) : corrOutside a a mods :=
  fun row2 h => ⟨row2, h, fun _ _ => rfl⟩

theorem corr_trans {a b c : DF} {m1 m2 : List String}
    (h1 : corrOutside a b m1) (h2 : corrOutside b c m2) :
    corrOutside a c (m1 ++ m2) := by
  intro row2 hrow2
  rcases h2 row2 hrow2 with ⟨rowb, hrowb, hb⟩
  rcases h1 rowb hrowb with ⟨rowa, hrowa, ha⟩
  refine ⟨rowa, hrowa, fun x hx => ?_⟩
  have hx1 : x ∉ m1 := fun hcon => hx (List.mem_append_left _ hcon)
  have hx2 : x ∉ m2 := fun hcon => hx (List.mem_append_right _ hcon)
  rw [hb x hx2, ha x hx1]

theorem corr_mono {a b : DF} {m1 m2 : List String} (h : corrOutside a b m1)
    (hsub : ∀ x ∈ m1, x ∈ m2) : corrOutside a b m2 := by
  intro row2 hrow2
  rcases h row2 hrow2 with ⟨row, hrow, hval⟩
  exact ⟨row, hrow, fun x hx => hval x (fun hc => hx (hsub x hc))⟩

theorem setCol_corr (df : DF) (c : String) (f : List CellVal → CellVal) (hrect : dfRect df) :
    corrOutside df (setCol df c f) [c] := by
  intro row2 h
  rcases setCol_char df c f hrect row2 h with ⟨row, hrow, _, hother⟩
  exact ⟨row, hrow, fun x hx => hother x (by simpa using hx)⟩

theorem dropna_corr (df : DF) (c : String) (mods : List String) :
    corrOutside df (dropnaSubset df c) mods := by
  intro row2 h
  rcases dropna_char df c row2 h with ⟨hmem, _⟩
  exact ⟨row2, hmem, fun x _ => rfl⟩

theorem copy_corr (df : DF) (hrect : dfRect df) :
    corrOutside df (copyTransactionDate df) ["transaction_date"] := by
  unfold copyTransactionDate
  split_ifs with h
  · exact setCol_corr df "transaction_date" _ hrect
  · exact corr_refl df _

theorem dateStep_corr (fb : String → Option PDate) (df : DF) (c : String) (hrect : dfRect df) :
    corrOutside df (dateStep fb df c) [c] := by
  unfold dateStep
  split_ifs with h
  · have h1 := setCol_corr df c (fun r => dateCell fb (getCell df.cols r c)) hrect
    have h2 := dropna_corr (applyCol df c (dateCell fb)) c ([] : List String)
    have h3 := corr_trans h1 h2
    simpa using h3
  · exact corr_refl df _

theorem copy_rect (df : DF) (hrect : dfRect df) : dfRect (copyTransactionDate df) := by
  unfold copyTransactionDate
  split_ifs with h
  · exact setCol_rect df _ _ hrect
  · exact hrect

theorem dateStep_rect (fb : String → Option PDate) (df : DF) (c : String) (hrect : dfRect df) :
    dfRect (dateStep fb df c) := by
  unfold dateStep
  split_ifs with h
  · exact dropna_rect _ c (setCol_rect df _ _ hrect)
  · exact hrect

theorem amountStep_corr (df : DF) (hrect : dfRect df) :
    corrOutside df (amountStep df) ["amount"] := by
  unfold amountStep
  split_ifs with h1 h2 h3
  · exact setCol_corr df "amount" _ hrect
  · exact setCol_corr df "amount" _ hrect
  · exact setCol_corr df "amount" _ hrect
  · exact corr_refl df _

theorem amountStep_rect (df : DF) (hrect : dfRect df) : dfRect (amountStep df) := by
  unfold amountStep
  split_ifs with h1 h2 h3 <;> first | exact setCol_rect df _ _ hrect | exact hrect

theorem typeStep_corr (df : DF) (hrect : dfRect df) :
    corrOutside df (typeStep df) ["type"] := by
  unfold typeStep
  split_ifs with h
  · exact setCol_corr df "type" _ hrect
  · exact corr_refl df _

theorem typeStep_rect (df : DF) (hrect : dfRect df) : dfRect (typeStep df) := by
  unfold typeStep
  split_ifs with h <;> first | exact setCol_rect df _ _ hrect | exact hrect

theorem categoryStep_corr (df : DF) (hrect : dfRect df) :
    corrOutside df (categoryStep df) ["category"] := by
  unfold categoryStep
  split_ifs with h
  · exact setCol_corr df "category" _ hrect
  · exact corr_refl df _

theorem categoryStep_rect (df : DF) (hrect : dfRect df) : dfRect (categoryStep df) := by
  unfold categoryStep
  split_ifs with h <;> first | exact setCol_rect df _ _ hrect | exact hrect

theorem vendorStep_corr (df : DF) (hrect : dfRect df) :
    corrOutside df (vendorStep df) ["vendorName"] := by
  unfold vendorStep
  split_ifs with h
  · exact setCol_corr df "vendorName" _ hrect
  · exact corr_refl df _

theorem vendorStep_rect (df : DF) (hrect : dfRect df) : dfRect (vendorStep df) := by
  unfold vendorStep
  split_ifs with h <;> first | exact setCol_rect df _ _ hrect | exact hrect

theorem dateStep_cols (fb : String → Option PDate) (df : DF) (c : String) :
    (dateStep fb df c).cols = df.cols := by
  unfold dateStep
  split_ifs with h
  · rcases Option.isSome_iff_exists.1 h with ⟨i, hi⟩
    rw [dropna_cols]
    exact setCol_cols_some df c _ i hi
  · rfl

theorem colIdx_copy (df : DF) (c2 : String) (h2 : c2 ≠ "transaction_date") :
    colIdx (copyTransactionDate df).cols c2 = colIdx df.cols c2 := by
  unfold copyTransactionDate
  split_ifs with h
  · have hparts : hasCol df "transaction_date" = false ∧ hasCol df "posting_date" = true := by
      simpa using h
    have hnone : colIdx df.cols "transaction_date" = none := by
      have h1 := hparts.1
      unfold hasCol at h1
      exact Option.not_isSome_iff_eq_none.1 (by simp [h1])
    unfold setCol
    rw [hnone]
    cases hc2 : colIdx df.cols c2 with
    | some j => exact colIdx_append_some df.cols _ c2 j hc2
    | none => exact colIdx_append_none df.cols _ c2 hc2 h2
  · rfl

theorem copy_td_present (df : DF)
    (h : hasCol df "transaction_date" = true ∨ hasCol df "posting_date" = true) :
    hasCol (copyTransactionDate df) "transaction_date" = true := by
  unfold copyTransactionDate
  split_ifs with hc
  · have hparts : hasCol df "transaction_date" = false ∧ hasCol df "posting_date" = true := by
      simpa using hc
    have hnone : colIdx df.cols "transaction_date" = none := by
      have h1 := hparts.1
      unfold hasCol at h1
      exact Option.not_isSome_iff_eq_none.1 (by simp [h1])
    unfold hasCol setCol
    rw [hnone]
    simp only []
    rw [colIdx_append_self df.cols "transaction_date" hnone]
    rfl
  · rcases h with h | h
    · exact h
    · by_contra hcon
      apply hc
      have htd : hasCol df "transaction_date" = false := by
        cases htd : hasCol df "transaction_date"
        · rfl
        · exact absurd htd hcon
      simp [htd, h]

theorem amountStep_eq_both (df : DF)
    (hc : hasCol df "amount_c" = true) (hd : hasCol df "amount_d" = true) :
    amountStep df = setCol df "amount" (fun r =>
      cellSub (fillna0 (getCell df.cols r "amount_c"))
        (fillna0 (getCell df.cols r "amount_d"))) := by
  unfold amountStep
  simp [hc, hd]

theorem amountStep_eq_conly (df : DF)
    (hc : hasCol df "amount_c" = true) (hd : hasCol df "amount_d" = false) :
    amountStep df = setCol df "amount" (fun r => getCell df.cols r "amount_c") := by
  unfold amountStep
  simp [hc, hd]

theorem amountStep_eq_donly (df : DF)
    (hc : hasCol df "amount_c" = false) (hd : hasCol df "amount_d" = true) :
    amountStep df = setCol df "amount" (fun r => cellNeg (getCell df.cols r "amount_d")) := by
  unfold amountStep
  simp [hc, hd]

theorem cellSub_fillna (x y : CellVal) (hx : numOrNull x) (hy : numOrNull y) :
    cellSub (fillna0 x) (fillna0 y) = CellVal.vnum (asQ x - asQ y) := by
  rcases hx with rfl | ⟨qx, rfl⟩ <;> rcases hy with rfl | ⟨qy, rfl⟩ <;>
    simp [cellSub, fillna0, asQ]

/-- C1: after header mapping, when both `amount_c` and `amount_d` columns
exist the unified amount is `amount_c − amount_d` with `NaN` read as 0 on
each side independently; when only `amount_c` exists the amount is that
column unchanged; when only `amount_d` exists the amount is its negation
(with `NaN` propagating). -/
theorem amount_sign_law (fb : String → Option PDate) (df : DF) (hrect : dfRect df)
    (hnum : ∀ r ∈ df.rows, numOrNull (getCell df.cols r "amount_c") ∧
      numOrNull (getCell df.cols r "amount_d")) :
    (hasCol df "amount_c" = true → hasCol df "amount_d" = true →
      ∀ row ∈ (csvReaderFrom fb df).rows,
        getCell (csvReaderFrom fb df).cols row "amount" =
          CellVal.vnum (asQ (getCell (csvReaderFrom fb df).cols row "amount_c") -
            asQ (getCell (csvReaderFrom fb df).cols row "amount_d"))) ∧
    (hasCol df "amount_c" = true → hasCol df "amount_d" = false →
      ∀ row ∈ (csvReaderFrom fb df).rows,
        getCell (csvReaderFrom fb df).cols row "amount" =
          getCell (csvReaderFrom fb df).cols row "amount_c") ∧
    (hasCol df "amount_c" = false → hasCol df "amount_d" = true →
      ∀ row ∈ (csvReaderFrom fb df).rows,
        ((getCell (csvReaderFrom fb df).cols row "amount_d" = CellVal.vnull →
            getCell (csvReaderFrom fb df).cols row "amount" = CellVal.vnull) ∧
         (∀ q, getCell (csvReaderFrom fb df).cols row "amount_d" = CellVal.vnum q →
            getCell (csvReaderFrom fb df).cols row "amount" = CellVal.vnum (-q)))) := by
  have hr1 : dfRect (copyTransactionDate df) := copy_rect df hrect
  have hr2 : dfRect (dateStep fb (copyTransactionDate df) "posting_date") :=
    dateStep_rect fb _ "posting_date" hr1
  have hr3 : dfRect (dateStep fb (dateStep fb (copyTransactionDate df) "posting_date")
      "transaction_date") := dateStep_rect fb _ "transaction_date" hr2
  have hcorrd := corr_trans (corr_trans (copy_corr df hrect)
    (dateStep_corr fb _ "posting_date" hr1)) (dateStep_corr fb _ "transaction_date" hr2)
  have hcolc : colIdx (dateStep fb (dateStep fb (copyTransactionDate df) "posting_date")
      "transaction_date").cols "amount_c" = colIdx df.cols "amount_c" := by
    rw [dateStep_cols, dateStep_cols, colIdx_copy df _ (by decide)]
  have hcold : colIdx (dateStep fb (dateStep fb (copyTransactionDate df) "posting_date")
      "transaction_date").cols "amount_d" = colIdx df.cols "amount_d" := by
    rw [dateStep_cols, dateStep_cols, colIdx_copy df _ (by decide)]
  have hra := amountStep_rect _ hr3
  have hcorrpost := corr_trans (corr_trans (typeStep_corr _ hra)
    (categoryStep_corr _ (typeStep_rect _ hra)))
    (vendorStep_corr _ (categoryStep_rect _ (typeStep_rect _ hra)))
  refine ⟨?_, ?_, ?_⟩
  · intro hc hd row hrow
    unfold csvReaderFrom at hrow ⊢
    rcases hcorrpost row hrow with ⟨rowA, hrowA, hpost⟩
    have hceq : hasCol (dateStep fb (dateStep fb (copyTransactionDate df) "posting_date")
        "transaction_date") "amount_c" = true := by
      unfold hasCol; rw [hcolc]; exact hc
    have hdeq : hasCol (dateStep fb (dateStep fb (copyTransactionDate df) "posting_date")
        "transaction_date") "amount_d" = true := by
      unfold hasCol; rw [hcold]; exact hd
    rw [amountStep_eq_both _ hceq hdeq] at hrowA hpost
    rcases setCol_char _ "amount" _ hr3 rowA hrowA with ⟨row3, hrow3, hval, hother⟩
    rcases hcorrd row3 hrow3 with ⟨row0, hrow0, hd3val⟩
    have hnc : numOrNull (getCell (dateStep fb (dateStep fb (copyTransactionDate df)
        "posting_date") "transaction_date").cols row3 "amount_c") := by
      rw [hd3val "amount_c" (by decide)]; exact (hnum row0 hrow0).1
    have hnd : numOrNull (getCell (dateStep fb (dateStep fb (copyTransactionDate df)
        "posting_date") "transaction_date").cols row3 "amount_d") := by
      rw [hd3val "amount_d" (by decide)]; exact (hnum row0 hrow0).2
    rw [amountStep_eq_both _ hceq hdeq]
    rw [hpost "amount" (by decide), hpost "amount_c" (by decide), hpost "amount_d" (by decide)]
    rw [hval, hother "amount_c" (by decide), hother "amount_d" (by decide)]
    exact cellSub_fillna _ _ hnc hnd
  · intro hc hd row hrow
    unfold csvReaderFrom at hrow ⊢
    rcases hcorrpost row hrow with ⟨rowA, hrowA, hpost⟩
    have hceq : hasCol (dateStep fb (dateStep fb (copyTransactionDate df) "posting_date")
        "transaction_date") "amount_c" = true := by
      unfold hasCol; rw [hcolc]; exact hc
    have hdeq : hasCol (dateStep fb (dateStep fb (copyTransactionDate df) "posting_date")
        "transaction_date") "amount_d" = false := by
      unfold hasCol; rw [hcold]; exact hd
    rw [amountStep_eq_conly _ hceq hdeq] at hrowA hpost
    rcases setCol_char _ "amount" _ hr3 rowA hrowA with ⟨row3, hrow3, hval, hother⟩
    rw [amountStep_eq_conly _ hceq hdeq]
    rw [hpost "amount" (by decide), hpost "amount_c" (by decide)]
    rw [hval, hother "amount_c" (by decide)]
  · intro hc hd row hrow
    unfold csvReaderFrom at hrow ⊢
    rcases hcorrpost row hrow with ⟨rowA, hrowA, hpost⟩
    have hceq : hasCol (dateStep fb (dateStep fb (copyTransactionDate df) "posting_date")
        "transaction_date") "amount_c" = false := by
      unfold hasCol; rw [hcolc]; exact hc
    have hdeq : hasCol (dateStep fb (dateStep fb (copyTransactionDate df) "posting_date")
        "transaction_date") "amount_d" = true := by
      unfold hasCol; rw [hcold]; exact hd
    rw [amountStep_eq_donly _ hceq hdeq] at hrowA hpost
    rcases setCol_char _ "amount" _ hr3 rowA hrowA with ⟨row3, hrow3, hval, hother⟩
    rw [amountStep_eq_donly _ hceq hdeq]
    rw [hpost "amount" (by decide), hpost "amount_d" (by decide)]
    rw [hval, hother "amount_d" (by decide)]
    constructor
    · intro hnull
      rw [hnull]
      rfl
    · intro q hq
      rw [hq]
      rfl

theorem amount_sign_law_witness :
    getCell (csvReaderFrom fbNone dfC1).cols
      ((csvReaderFrom fbNone dfC1).rows.getD 0 []) "amount" =
      CellVal.vnum (asQ (getCell (csvReaderFrom fbNone dfC1).cols
          ((csvReaderFrom fbNone dfC1).rows.getD 0 []) "amount_c") -
        asQ (getCell (csvReaderFrom fbNone dfC1).cols
          ((csvReaderFrom fbNone dfC1).rows.getD 0 []) "amount_d")) := by
  have hnum : ∀ r ∈ dfC1.rows, numOrNull (getCell dfC1.cols r "amount_c") ∧
      numOrNull (getCell dfC1.cols r "amount_d") := by
    intro r hr
    have hr1 : r = [CellVal.vnum 5, CellVal.vnull] := by
      simpa [dfC1] using hr
    subst hr1
    exact ⟨Or.inr ⟨5, rfl⟩, Or.inl rfl⟩
  have hrect : dfRect dfC1 := by
    intro r hr
    have hr1 : r = [CellVal.vnum 5, CellVal.vnull] := by
      simpa [dfC1] using hr
    subst hr1
    rfl
  have h := (amount_sign_law fbNone dfC1 hrect hnum).1 (by decide) (by decide)
  exact h _ (by with_unfolding_all decide)

/-! ### Date parsing (claim C8) -/

theorem findSome?_first (l : List String) (g : String → Option PDate) (i : Nat) (d : PDate)
    (hi : i < l.length) (hg : g (l.getD i "") = some d)
    (hprev : ∀ j, j < i → g (l.getD j "") = none) :
    l.findSome? g = some d := by
  induction l generalizing i with
  | nil => simp at hi
  | cons a t ih =>
      cases i with
      | zero =>
          simp only [List.getD_cons_zero] at hg
          simp [List.findSome?_cons, hg]
      | succ i =>
          have ha : g a = none := by
            have := hprev 0 (Nat.succ_pos i)
            simpa using this
          simp only [List.findSome?_cons, ha]
          exact ih i (by simpa using hi) (by simpa using hg)
            (fun j hj => by simpa using hprev (j + 1) (by omega))

theorem findSome?_none (l : List String) (g : String → Option PDate)
    (h : ∀ f ∈ l, g f = none) : l.findSome? g = none := by
  induction l with
  | nil => rfl
  | cons a t ih =>
      have ha : g a = none := h a (by simp)
      simp only [List.findSome?_cons, ha]
      exact ih (fun f hf => h f (by simp [hf]))

theorem dateStep_vdate (fb : String → Option PDate) (df : DF) (c : String)
    (hrect : dfRect df) (hc : hasCol df c = true) :
    ∀ row2 ∈ (dateStep fb df c).rows, ∃ dd,
      getCell (dateStep fb df c).cols row2 c = CellVal.vdate dd := by
  intro row2 hrow2
  unfold dateStep at hrow2 ⊢
  rw [if_pos hc] at hrow2 ⊢
  rcases dropna_char _ c row2 hrow2 with ⟨hmem, hnn⟩
  unfold applyCol at hmem hnn ⊢
  rcases setCol_char df c (fun r => dateCell fb (getCell df.cols r c)) hrect row2 hmem with
    ⟨row, hrow, hval, _⟩
  cases hcv : convertToYMD fb (getCell df.cols row c) with
  | some dd =>
      refine ⟨dd, ?_⟩
      show getCell (setCol df c (fun r => dateCell fb (getCell df.cols r c))).cols row2 c =
        CellVal.vdate dd
      rw [hval]
      unfold dateCell
      rw [hcv]
  | none =>
      exfalso
      apply hnn
      have : getCell (setCol df c (fun r => dateCell fb (getCell df.cols r c))).cols row2 c =
          CellVal.vnull := by
        rw [hval]
        unfold dateCell
        rw [hcv]
      simpa using this

/-- C8: date parsing tries the fixed ordered format list with the first
matching format winning, falls back to the free-form parser when every
format fails, yields null when that also fails (and on null input), and
every row whose `posting_date` or `transaction_date` failed to parse is
removed, so surviving rows carry datetime values in those columns. -/
theorem date_parsing_spec (fb : String → Option PDate) (df : DF) (hrect : dfRect df) :
    (∀ s : String, ∀ i : Nat, ∀ d : PDate, s ≠ "" → i < commonFormats.length →
      strptimeM (commonFormats.getD i "") (pyStripWS s.data) = some d →
      (∀ j, j < i → strptimeM (commonFormats.getD j "") (pyStripWS s.data) = none) →
      convertToYMD fb (CellVal.vstr s) = some d) ∧
    (∀ s : String, s ≠ "" →
      (∀ f ∈ commonFormats, strptimeM f (pyStripWS s.data) = none) →
      convertToYMD fb (CellVal.vstr s) = fb (pyStripWS s.data).asString) ∧
    (convertToYMD fb CellVal.vnull = none) ∧
    (hasCol df "posting_date" = true →
      ∀ row ∈ (csvReaderFrom fb df).rows, ∃ dd,
        getCell (csvReaderFrom fb df).cols row "posting_date" = CellVal.vdate dd) ∧
    ((hasCol df "transaction_date" = true ∨ hasCol df "posting_date" = true) →
      ∀ row ∈ (csvReaderFrom fb df).rows, ∃ dd,
        getCell (csvReaderFrom fb df).cols row "transaction_date" = CellVal.vdate dd) := by
  have hr1 : dfRect (copyTransactionDate df) := copy_rect df hrect
  have hr2 : dfRect (dateStep fb (copyTransactionDate df) "posting_date") :=
    dateStep_rect fb _ "posting_date" hr1
  have hr3 : dfRect (dateStep fb (dateStep fb (copyTransactionDate df) "posting_date")
      "transaction_date") := dateStep_rect fb _ "transaction_date" hr2
  have hra := amountStep_rect _ hr3
  have hrt := typeStep_rect _ hra
  have hrcat := categoryStep_rect _ hrt
  refine ⟨?_, ?_, rfl, ?_, ?_⟩
  · intro s i d hs hi hg hprev
    have h0 : (s == "") = false := by
      cases hb : (s == "")
      · rfl
      · exact absurd (eq_of_beq hb) hs
    show (if (s == "") = true then none
      else
        match tryFormats (pyStripWS s.data) with
        | some dp => some dp
        | none => fb (pyStripWS s.data).asString) = some d
    rw [h0]
    simp only [Bool.false_eq_true, if_false]
    have htf : tryFormats (pyStripWS s.data) = some d :=
      findSome?_first commonFormats _ i d hi hg hprev
    rw [htf]
  · intro s hs hall
    have h0 : (s == "") = false := by
      cases hb : (s == "")
      · rfl
      · exact absurd (eq_of_beq hb) hs
    show (if (s == "") = true then none
      else
        match tryFormats (pyStripWS s.data) with
        | some dp => some dp
        | none => fb (pyStripWS s.data).asString) = fb (pyStripWS s.data).asString
    rw [h0]
    simp only [Bool.false_eq_true, if_false]
    have htf : tryFormats (pyStripWS s.data) = none := findSome?_none commonFormats _ hall
    rw [htf]
  · intro hp row hrow
    have hp1 : hasCol (copyTransactionDate df) "posting_date" = true := by
      unfold hasCol
      rw [colIdx_copy df _ (by decide)]
      exact hp
    have hvd := dateStep_vdate fb (copyTransactionDate df) "posting_date" hr1 hp1
    have hcorr := corr_trans (corr_trans (corr_trans (corr_trans
      (dateStep_corr fb _ "transaction_date" hr2) (amountStep_corr _ hr3))
      (typeStep_corr _ hra)) (categoryStep_corr _ hrt)) (vendorStep_corr _ hrcat)
    unfold csvReaderFrom at hrow ⊢
    rcases hcorr row hrow with ⟨rowD, hrowD, hval⟩
    rcases hvd rowD hrowD with ⟨dd, hdd⟩
    refine ⟨dd, ?_⟩
    rw [hval "posting_date" (by decide)]
    exact hdd
  · intro hp row hrow
    have htd1 : hasCol (copyTransactionDate df) "transaction_date" = true :=
      copy_td_present df hp
    have htd2 : hasCol (dateStep fb (copyTransactionDate df) "posting_date")
        "transaction_date" = true := by
      unfold hasCol
      rw [dateStep_cols]
      exact htd1
    have hvd := dateStep_vdate fb (dateStep fb (copyTransactionDate df) "posting_date")
      "transaction_date" hr2 htd2
    have hcorr := corr_trans (corr_trans (corr_trans (amountStep_corr _ hr3)
      (typeStep_corr _ hra)) (categoryStep_corr _ hrt)) (vendorStep_corr _ hrcat)
    unfold csvReaderFrom at hrow ⊢
    rcases hcorr row hrow with ⟨rowD, hrowD, hval⟩
    rcases hvd rowD hrowD with ⟨dd, hdd⟩
    refine ⟨dd, ?_⟩
    rw [hval "transaction_date" (by decide)]
    exact hdd

theorem date_parsing_spec_witness :
    convertToYMD fbNone (CellVal.vstr "03/14/2024") =
      some { year := 2024, month := 3, day := 14 } ∧
    (∃ dd, getCell (csvReaderFrom fbNone dfC8).cols
        ((csvReaderFrom fbNone dfC8).rows.getD 0 []) "posting_date" = CellVal.vdate dd) := by
  have hrect : dfRect dfC8 := by
    intro r hr
    have hr2 : r = [CellVal.vstr "2024-03-14"] ∨ r = [CellVal.vstr "garbage"] := by
      simpa [dfC8] using hr
    rcases hr2 with rfl | rfl <;> rfl
  have h := date_parsing_spec fbNone dfC8 hrect
  constructor
  · refine h.1 "03/14/2024" 1 { year := 2024, month := 3, day := 14 }
      (by decide) (by decide) (by decide) ?_
    intro j hj
    interval_cases j
    decide
  · exact h.2.2.2.1 (by decide) _ (by with_unfolding_all decide)
